import Mathlib

/-!
# Parallel web scraper: crawl engine, URL resolver and statistics aggregator

A shallow embedding of `Web_sakupljac/web_scraper.cpp` and of the part of
`Web_sakupljac/main.cpp` that reads the final statistics.

Conventions of the embedding

* `std::string` is a `List Char`, one `Char` per C++ `char`; `std::string::npos`
  is `none`.
* A finite `double` is the rational number it stands for; comparisons are exact,
  an addition is the exact sum rounded to the nearest double, ties to even
  (`double_add`); `std::numeric_limits<double>::max()` is the rational `DBL_MAX`.
  A sum beyond the range of the finite doubles, which the source turns into an
  infinity, is not represented: the statements that depend on the value of a
  sum name the condition `IsDouble` on it. The two quotients that `main`
  prints are the exact quotients.
* An `int` is an `Int`; an addition on a counter (`std::atomic<int>::fetch_add`)
  wraps around in 32-bit two's complement (`wrap32`).
* `tbb::concurrent_unordered_set<std::string>` is a `Finset` of strings; its
  `insert` reports whether the key was new.
* The globals of the program are the fields of one record `Globals` that is
  passed explicitly through every function.
* `download` (network) and the page extractor are external behaviour and are
  the two fields of `Env`; a crawl is a function of an `Env`.
-/

namespace WebScraper

/-! ## Strings -/

/-- The C++ `std::string`, as the list of its characters. -/
abbrev CppString := List Char

/-- Search `pat` in the text `s` whose first character has absolute index `i`:
the lowest index at which `pat` occurs, `none` when it does not occur. -/
def findFrom (pat : CppString) : CppString → Nat → Option Nat
  | [], i => if pat = [] then some i else none
  | c :: cs, i => if pat.isPrefixOf (c :: cs) then some i else findFrom pat cs (i + 1)

/-- The call `s.find(pat, pos)` of `std::string`: the lowest index `≥ pos` at
which `pat` occurs in `s`, `none` (npos) when there is none or `pos > s.size()`. -/
def find (s pat : CppString) (pos : Nat) : Option Nat :=
  if pos ≤ s.length then findFrom pat (s.drop pos) pos else none

/-- The call `s.rfind(c)` of `std::string`: the highest index of the character
`c` in `s`, `none` (npos) when `c` does not occur. -/
def rfind : CppString → Char → Option Nat
  | [], _ => none
  | x :: xs, c =>
    match rfind xs c with
    | some k => some (k + 1)
    | none => if x = c then some 0 else none

/-- The call `s.substr(pos, n)` of `std::string` for `pos ≤ s.size()`. -/
def substr (s : CppString) (pos n : Nat) : CppString :=
  (s.drop pos).take n

/-! ## URL resolver -/

/-- The function `make_absolute(relative_url, base_url)` of `web_scraper.cpp`. -/
def make_absolute (relative_url base_url : CppString) : CppString :=
  if relative_url.isEmpty then []
  else if find relative_url "http".toList 0 = some 0 then relative_url
  else
    let base := base_url
    if relative_url.head? = some '/' then
      -- absolute path, add domain
      let domain_end := find base "/".toList 8
      let base := match domain_end with
        | some d => substr base 0 d
        | none => base
      base ++ relative_url
    else
      -- relative, add directory
      let last_slash := rfind base '/'
      let base := match last_slash with
        | some k => substr base 0 (k + 1)
        | none => base
      base ++ relative_url

/-! ## Machine numbers -/

/-- A value brought into the range of a 32-bit `int` by two's complement
wrap-around. -/
def wrap32 (x : Int) : Int := (x + 2147483648) % 4294967296 - 2147483648

/-- A counter that starts at `t` after `n` calls of `fetch_add(1)`. -/
def wrapAdd (t : Int) (n : Nat) : Int := if n = 0 then t else wrap32 (t + (n : Int))

/-- The power `2^k` for an integer `k`. -/
def pow2 (k : Int) : ℚ :=
  if 0 ≤ k then ((2 ^ k.toNat : Nat) : ℚ) else 1 / ((2 ^ (-k).toNat : Nat) : ℚ)

/-- The binary logarithm of `n`, rounded down, computed with at most `fuel`
halvings. -/
def log2Fuel : Nat → Nat → Nat
  | 0, _ => 0
  | fuel + 1, n => if n < 2 then 0 else log2Fuel fuel (n / 2) + 1

/-- The binary logarithm of a positive natural number, rounded down. -/
def ilog2 (n : Nat) : Nat := log2Fuel n n

/-- The binary exponent of a positive rational `a`: the `e` with
`2^e ≤ a < 2^(e+1)`. -/
def floorLog2 (a : ℚ) : Int :=
  let k : Int := (ilog2 a.num.toNat : Int) - (ilog2 a.den : Int)
  if a < pow2 k then k - 1 else k

/-- The integer nearest to `m`, the even one of the two when `m` lies halfway. -/
def roundHalfEven (m : ℚ) : Int :=
  let f : Int := ⌊m⌋
  let r : ℚ := m - (f : ℚ)
  if r < 1 / 2 then f
  else if 1 / 2 < r then f + 1
  else if f % 2 = 0 then f else f + 1

/-- The binary exponent of the last place of the doubles around `x`: 52 places
below the exponent of `x`, and not below the exponent of the subnormals. -/
def ulpExp (x : ℚ) : Int := max (floorLog2 |x| - 52) (-1074)

/-- The IEEE 754 binary64 number nearest to `x`, ties to even (the rounding of
every `double` operation). -/
def roundDouble (x : ℚ) : ℚ :=
  if x = 0 then 0 else (roundHalfEven (x / pow2 (ulpExp x)) : ℚ) * pow2 (ulpExp x)

/-- The sum of two doubles, as `std::atomic<double>::fetch_add` stores it. -/
def double_add (a b : ℚ) : ℚ := roundDouble (a + b)

/-! ## Data model -/

/-- The struct `Book` of `web_scraper.h`: one extracted record. -/
structure Book where
  title : CppString
  price : ℚ
  rating : Int
  category : CppString
  deriving DecidableEq

/-- The struct `BookInfo` of `web_scraper.h`: the record kept for the cheapest
and for the most expensive book. -/
structure BookInfo where
  title : CppString
  rating : Int
  price : ℚ
  deriving DecidableEq

/-- The value `std::numeric_limits<double>::max()`, that is `(2 - 2^(-52)) * 2^1023`. -/
def DBL_MAX : ℚ := 2 ^ 1024 - 2 ^ 971

/-- The rational `x` is a finite double: rounding leaves it as it is and it is
within the range of the finite doubles. -/
def IsDouble (x : ℚ) : Prop := roundDouble x = x ∧ |x| ≤ DBL_MAX

instance (x : ℚ) : Decidable (IsDouble x) := by
  unfold IsDouble
  exact inferInstance

/-- The global variables of `web_scraper.cpp` (lines 8 to 21). -/
structure Globals where
  visited : Finset CppString
  categories : Finset CppString
  total_books : Int
  one_star : Int
  two_stars : Int
  three_stars : Int
  four_stars : Int
  five_stars : Int
  sum_ratings : ℚ
  total_price : ℚ
  max_price : ℚ
  min_price : ℚ
  min_book : BookInfo
  max_book : BookInfo
  deriving DecidableEq

/-- The values the globals are defined with (lines 8 to 21 of `web_scraper.cpp`);
the two sets are default-constructed, that is empty. -/
def initial_globals : Globals :=
  { visited := ∅
    categories := ∅
    total_books := 0
    one_star := 0
    two_stars := 0
    three_stars := 0
    four_stars := 0
    five_stars := 0
    sum_ratings := 0
    total_price := 0
    max_price := 0
    min_price := DBL_MAX
    min_book := { title := [], rating := 0, price := DBL_MAX }
    max_book := { title := [], rating := 0, price := 0 } }

/-- The function `reset_globals()` of `web_scraper.cpp`: every global is assigned. -/
def reset_globals (_ : Globals) : Globals :=
  { visited := ∅
    categories := ∅
    total_books := 0
    one_star := 0
    two_stars := 0
    three_stars := 0
    four_stars := 0
    five_stars := 0
    sum_ratings := 0
    total_price := 0
    max_price := 0
    min_price := DBL_MAX
    min_book := { title := [], rating := 0, price := DBL_MAX }
    max_book := { title := [], rating := 0, price := 0 } }

/-! ## Aggregator -/

/-- One iteration of the loop of `update_stats`, for the record `b`, run without
interference: the atomic additions (32-bit wrap-around on the `int` counters,
rounding on the `double` sums), the `switch` on the rating, the two
compare-and-swap loops on `min_price` and `max_price`, and the update of
`min_book` and `max_book` under `stats_mutex`. -/
def update_one (g : Globals) (b : Book) : Globals :=
  let g := { g with total_books := wrap32 (g.total_books + 1) }
  let g := { g with sum_ratings := double_add g.sum_ratings (b.rating : ℚ) }
  let g := { g with total_price := double_add g.total_price b.price }
  let g :=
    if b.rating = 1 then { g with one_star := wrap32 (g.one_star + 1) }
    else if b.rating = 2 then { g with two_stars := wrap32 (g.two_stars + 1) }
    else if b.rating = 3 then { g with three_stars := wrap32 (g.three_stars + 1) }
    else if b.rating = 4 then { g with four_stars := wrap32 (g.four_stars + 1) }
    else if b.rating = 5 then { g with five_stars := wrap32 (g.five_stars + 1) }
    else g
  let g := if b.price < g.min_price then { g with min_price := b.price } else g
  let g := if b.price > g.max_price then { g with max_price := b.price } else g
  let g :=
    if b.price < g.min_book.price then
      { g with min_book := { title := b.title, rating := b.rating, price := b.price } }
    else g
  let g :=
    if b.price > g.max_book.price then
      { g with max_book := { title := b.title, rating := b.rating, price := b.price } }
    else g
  g

/-- The function `update_stats(local_books, cat)` of `web_scraper.cpp`. -/
def update_stats (local_books : List Book) (_cat : CppString) (g : Globals) : Globals :=
  local_books.foldl update_one g

/-! ## Crawl engine -/

/-- What `parse` hands back through its three reference parameters. -/
structure ParseResult where
  category : CppString
  books : List Book
  new_urls : List CppString

/-- The behaviour the crawl is run against: what `download(url)` returns for
each URL (the empty string on failure) and what the extractor returns for each
body and source URL. -/
structure Env where
  download : CppString → CppString
  parse : CppString → CppString → ParseResult

/-- The state of a crawl: the globals, and the URLs `download` was called on,
oldest first. -/
structure Crawl where
  g : Globals
  downloads : List CppString
  deriving DecidableEq

/-- The call `set.insert(key)` of `tbb::concurrent_unordered_set`: the set with
`key` in it, and whether `key` was inserted by this call (the `second` of the
returned pair). -/
def concurrent_insert (set : Finset CppString) (key : CppString) :
    Finset CppString × Bool :=
  (insert key set, decide (key ∉ set))

/-- The `while (!q.empty())` loop of `serial_scrape`; `fuel` bounds the number
of iterations and `none` means the bound was reached with a non-empty queue. -/
def serial_loop (env : Env) : Nat → Crawl → List CppString → Option Crawl
  | _, c, [] => some c
  | 0, _, _ :: _ => none
  | fuel + 1, c, url :: q =>
    let insert_res := concurrent_insert c.g.visited url
    let c : Crawl := { c with g := { c.g with visited := insert_res.1 } }
    if !insert_res.2 then serial_loop env fuel c q
    else
      let html := env.download url
      let c : Crawl := { c with downloads := c.downloads ++ [url] }
      if html.isEmpty then serial_loop env fuel c q
      else
        let r := env.parse html url
        let g :=
          if !r.category.isEmpty then
            { c.g with categories := (concurrent_insert c.g.categories r.category).1 }
          else c.g
        let g := update_stats r.books r.category g
        serial_loop env fuel { c with g := g }
          (q ++ r.new_urls.map (fun nu => make_absolute nu url))

/-- The function `serial_scrape(start_url)` of `web_scraper.cpp`, run on the
globals `g`. -/
def serial_scrape (env : Env) (fuel : Nat) (start_url : CppString) (g : Globals) :
    Option Crawl :=
  serial_loop env fuel { g := g, downloads := [] } [start_url]

/-- The task tree of `scrape`, run one task at a time: `pool` holds the calls
`scrape(full_url)` handed to `g.run` that have not started, the next entry of
the schedule picks which of them runs, and its own `g.run` calls join the pool.
The outermost `g.wait()` returns when the pool is empty; `none` means the
schedule ended before that. -/
def scrape_loop (env : Env) : List Nat → Crawl → List CppString → Option Crawl
  | _, c, [] => some c
  | [], _, _ :: _ => none
  | i :: sched, c, t :: ts =>
    let k := i % (t :: ts).length
    let url := (t :: ts).getD k t
    let rest := (t :: ts).eraseIdx k
    let insert_res := concurrent_insert c.g.visited url
    let c : Crawl := { c with g := { c.g with visited := insert_res.1 } }
    if !insert_res.2 then scrape_loop env sched c rest
    else
      let html := env.download url
      let c : Crawl := { c with downloads := c.downloads ++ [url] }
      if html.isEmpty then scrape_loop env sched c rest
      else
        let r := env.parse html url
        let g :=
          if !r.category.isEmpty then
            { c.g with categories := (concurrent_insert c.g.categories r.category).1 }
          else c.g
        let g := update_stats r.books r.category g
        scrape_loop env sched { c with g := g }
          (rest ++ r.new_urls.map (fun nu => make_absolute nu url))

/-- The function `scrape(url)` of `web_scraper.cpp`, run on the globals `g`
under the task schedule `sched`: entry `i` of the schedule starts the pending
task at position `i` modulo the number of pending tasks, so the schedules range
over every order in which the spawned tasks can run one after the other. -/
def scrape (env : Env) (sched : List Nat) (url : CppString) (g : Globals) :
    Option Crawl :=
  scrape_loop env sched { g := g, downloads := [] } [url]

/-! ## Reading the results (`main`) -/

/-- The value `num_pages` of `main`: `visited.size()`. -/
def num_pages (g : Globals) : Int := (g.visited.card : Int)

/-- The value `avg_rating` of `main`, as the exact quotient. -/
def avg_rating (g : Globals) : ℚ :=
  if g.total_books > 0 then g.sum_ratings / (g.total_books : ℚ) else 0

/-! ## Auxiliary definitions used in the statements -/

/-- The body of one crawl task on `url`, common to `scrape` and to one
iteration of `serial_scrape`: the new state and the resolved links found. -/
def visit (env : Env) (c : Crawl) (url : CppString) : Crawl × List CppString :=
  if url ∈ c.g.visited then (c, [])
  else
    let c : Crawl :=
      { g := { c.g with visited := insert url c.g.visited }
        downloads := c.downloads ++ [url] }
    if (env.download url).isEmpty then (c, [])
    else
      let r := env.parse (env.download url) url
      let g :=
        if r.category.isEmpty then c.g
        else { c.g with categories := insert r.category c.g.categories }
      ({ c with g := update_stats r.books r.category g },
        r.new_urls.map (fun nu => make_absolute nu url))

/-- The records a crawl task on `url` hands to `update_stats`. -/
def booksOf (env : Env) (url : CppString) : List Book :=
  if (env.download url).isEmpty then [] else (env.parse (env.download url) url).books

/-- The resolved links a crawl task on `url` discovers. -/
def linksOf (env : Env) (url : CppString) : List CppString :=
  if (env.download url).isEmpty then []
  else (env.parse (env.download url) url).new_urls.map (fun nu => make_absolute nu url)

/-- The record `update_stats` stores for a book. -/
def Book.info (b : Book) : BookInfo :=
  { title := b.title, rating := b.rating, price := b.price }

/-- The statistics of a state: the state with the two sets emptied. -/
def statsOf (g : Globals) : Globals :=
  { g with visited := ∅, categories := ∅ }

/-- The set `S` of URLs contains every link discovered from its members. -/
def LinkClosed (env : Env) (S : Set CppString) : Prop :=
  ∀ u ∈ S, ∀ v ∈ linksOf env u, v ∈ S

/-- What holds of a crawl from `start` between two tasks, `pool` being the
queue of the serial crawl or the tasks of the parallel crawl not yet run. -/
structure CrawlInv (env : Env) (start : CppString) (c : Crawl)
    (pool : List CppString) : Prop where
  nodup : c.downloads.Nodup
  visited_eq : c.g.visited = c.downloads.toFinset
  stats : statsOf c.g = update_stats (c.downloads.flatMap (booksOf env)) [] (reset_globals c.g)
  start_mem : start ∈ c.g.visited ∨ start ∈ pool
  closed : ∀ u ∈ c.g.visited, ∀ v ∈ linksOf env u, v ∈ c.g.visited ∨ v ∈ pool
  least : ∀ S : Set CppString, start ∈ S → LinkClosed env S →
    (∀ u ∈ c.g.visited, u ∈ S) ∧ (∀ u ∈ pool, u ∈ S)

/-- Two states agree on the counters and the scalar extrema. -/
def SameCounts (a b : Globals) : Prop :=
  a.total_books = b.total_books
    ∧ a.one_star = b.one_star ∧ a.two_stars = b.two_stars
    ∧ a.three_stars = b.three_stars ∧ a.four_stars = b.four_stars
    ∧ a.five_stars = b.five_stars
    ∧ a.min_price = b.min_price ∧ a.max_price = b.max_price

/-! ## Fixtures -/

/-- A record rated 3 at price 10.00. -/
def bookA : Book := { title := "A".toList, price := 10, rating := 3, category := [] }

/-- A record rated 5 at price 20.00. -/
def bookB : Book := { title := "B".toList, price := 20, rating := 5, category := [] }

/-- A record rated 1 at price 5.00. -/
def bookC : Book := { title := "C".toList, price := 5, rating := 1, category := [] }

/-- A record at the same price as `bookA` with another title and rating. -/
def bookA2 : Book := { title := "A2".toList, price := 10, rating := 4, category := [] }

/-- A record at price 0. -/
def bookFree : Book := { title := "Free".toList, price := 0, rating := 2, category := [] }

/-- A record whose rating is outside 1..5. -/
def bookUnrated : Book := { title := "U".toList, price := 7, rating := 0, category := [] }

/-- The index page of the fixtures. -/
def urlIndex : CppString := "https://site.example/index.html".toList

/-- The first category page of the fixtures. -/
def urlCat1 : CppString :=
  "https://site.example/catalogue/category/books/travel_2/index.html".toList

/-- The second category page of the fixtures. -/
def urlCat2 : CppString :=
  "https://site.example/catalogue/category/books/travel_2/page-2.html".toList

/-- The 3-page fixture: the index page links to one category page, which holds
the records A (rated 3, price 10.00) and B (rated 5, price 20.00) and a
next-page link to a second category page, which holds the record C (rated 1,
price 5.00) and no link. Every other URL fails to download. -/
def fixtureEnv : Env :=
  { download := fun url =>
      if url = urlIndex then "index".toList
      else if url = urlCat1 then "cat1".toList
      else if url = urlCat2 then "cat2".toList
      else []
    parse := fun html _ =>
      if html = "index".toList then
        { category := "All products".toList
          books := []
          new_urls := ["catalogue/category/books/travel_2/index.html".toList] }
      else if html = "cat1".toList then
        { category := "Travel".toList
          books := [bookA, bookB]
          new_urls := ["page-2.html".toList] }
      else if html = "cat2".toList then
        { category := "Travel".toList, books := [bookC], new_urls := [] }
      else { category := [], books := [], new_urls := [] } }

/-- A record at the price 51.77, as a double. -/
def bookP1 : Book :=
  { title := "P1".toList, price := roundDouble (5177 / 100), rating := 4, category := [] }

/-- A record at the price 53.74, as a double. -/
def bookP2 : Book :=
  { title := "P2".toList, price := roundDouble (5374 / 100), rating := 2, category := [] }

/-- A record at the price 20.66, as a double. -/
def bookP3 : Book :=
  { title := "P3".toList, price := roundDouble (2066 / 100), rating := 5, category := [] }

/-- The URLs reachable from `start`: `start` itself and every resolved link
found on the page of a reachable URL whose download succeeds. -/
inductive Reachable (env : Env) (start : CppString) : CppString → Prop
  | start : Reachable env start start
  | link (u v : CppString) : Reachable env start u → v ∈ linksOf env u →
      Reachable env start v

/-- A bound on the number of loop iterations (tasks) of a crawl whose URLs stay
inside the finite set `R`: one for the start URL and, for each URL of `R`, one
for its claim and one for each link found on its page. -/
def crawlBound (env : Env) (R : Finset CppString) : Nat :=
  1 + R.sum (fun u => 1 + (linksOf env u).length)

/-- A fixture with cycles: the index page links to itself and to a category
page, and the category page links back to the index page. -/
def cycleEnv : Env :=
  { download := fun url =>
      if url = urlIndex then "index".toList
      else if url = urlCat1 then "cat1".toList
      else []
    parse := fun html _ =>
      if html = "index".toList then
        { category := "All products".toList
          books := []
          new_urls := ["index.html".toList,
            "catalogue/category/books/travel_2/index.html".toList] }
      else if html = "cat1".toList then
        { category := "Travel".toList
          books := [bookA]
          new_urls := ["https://site.example/index.html".toList] }
      else { category := [], books := [], new_urls := [] } }

/-- A fixture with dead ends: the index page holds an empty link and a link to a
page that fails to download; no other URL downloads. -/
def deadEnv : Env :=
  { download := fun url => if url = urlIndex then "index".toList else []
    parse := fun html _ =>
      if html = "index".toList then
        { category := "All products".toList
          books := []
          new_urls := [[], "missing.html".toList] }
      else { category := [], books := [bookA], new_urls := ["x.html".toList] } }

/-! ## Extractor (`parse`) -/

/-- The double quote character. -/
def dquote : Char := Char.ofNat 34

/-- The text `s` between double quotes. -/
def quoted (s : String) : CppString := dquote :: (s.toList ++ [dquote])

/-- The call `s.find_first_of(chars)` of `std::string`: the lowest index of a
character of `s` that occurs in `chars`, `none` (npos) when there is none. -/
def find_first_of : CppString → CppString → Option Nat
  | [], _ => none
  | c :: cs, chars =>
    if c ∈ chars then some 0
    else
      match find_first_of cs chars with
      | some k => some (k + 1)
      | none => none

/-- The local `Book b;` of `parse`: `title` and `category` are default-constructed
strings, `price` and `rating` have no initialiser, and `none` stands for a
member that was never assigned (its value is indeterminate). -/
structure ParsedBook where
  title : CppString
  price : Option ℚ
  rating : Option Int
  category : CppString
  deriving DecidableEq

/-- What `parse` writes to its three reference parameters. -/
structure ParseOut where
  category : CppString
  books : List ParsedBook
  new_urls : List CppString
  deriving DecidableEq

/-- The literal `<h1>`. -/
def pat_h1 : CppString := "<h1>".toList

/-- The literal `</h1>`. -/
def pat_h1_end : CppString := "</h1>".toList

/-- The literal `class="next">`. -/
def pat_next : CppString := "class=".toList ++ quoted "next" ++ ">".toList

/-- The literal `href="`. -/
def pat_href : CppString := "href=".toList ++ [dquote]

/-- The literal `href="catalogue/category/books/`. -/
def pat_category_href : CppString :=
  "href=".toList ++ [dquote] ++ "catalogue/category/books/".toList

/-- The literal `<article class="product_pod">`. -/
def pat_article : CppString := "<article class=".toList ++ quoted "product_pod" ++ ">".toList

/-- The literal `<p class="star-rating ` (with its trailing blank). -/
def pat_star : CppString := "<p class=".toList ++ [dquote] ++ "star-rating ".toList

/-- The literal `title="`. -/
def pat_title : CppString := "title=".toList ++ [dquote]

/-- The literal `<p class="price_color">`. -/
def pat_price : CppString := "<p class=".toList ++ quoted "price_color" ++ ">".toList

/-- The part of `parse` that extracts the category from `<h1>` (lines 57 to 65). -/
def parse_category (html : CppString) : CppString :=
  match find html pat_h1 0 with
  | some cat_start =>
    let cat_start := cat_start + 4
    match find html pat_h1_end cat_start with
    | some cat_end => substr html cat_start (cat_end - cat_start)
    | none => []
  | none => []

/-- The part of `parse` that extracts the next-page link (lines 67 to 78). -/
def parse_next (html : CppString) : List CppString :=
  match find html pat_next 0 with
  | some next_start =>
    match find html pat_href next_start with
    | some next_start =>
      let next_start := next_start + 6
      match find html [dquote] next_start with
      | some next_end => [substr html next_start (next_end - next_start)]
      | none => []
    | none => []
  | none => []

/-- The loop of `parse` that collects the category links (lines 83 to 93),
started at position `pos` with the links `new_urls` found so far; `fuel` bounds
the number of iterations. -/
def category_links_loop (html : CppString) : Nat → Nat → List CppString → List CppString
  | 0, _, new_urls => new_urls
  | fuel + 1, pos, new_urls =>
    match find html pat_category_href pos with
    | none => new_urls
    | some pos =>
      let pos := pos + 6
      match find html [dquote] pos with
      | some end_ =>
        let link := substr html pos (end_ - pos)
        let new_urls :=
          if find link "/index.html".toList 0 ≠ none then new_urls ++ [link] else new_urls
        category_links_loop html fuel end_ new_urls
      | none => category_links_loop html fuel pos new_urls

/-- The rating of one article (lines 102 to 116), searched from position `pos`. -/
def parse_rating (html : CppString) (pos : Nat) (b : ParsedBook) : ParsedBook :=
  match find html pat_star pos with
  | some rating_start =>
    match find html " ".toList (rating_start + 20) with
    | some rating_start =>
      match find html [dquote] rating_start with
      | some rating_end =>
        let rating_str := substr html (rating_start + 1) (rating_end - rating_start - 1)
        if rating_str = "One".toList then { b with rating := some 1 }
        else if rating_str = "Two".toList then { b with rating := some 2 }
        else if rating_str = "Three".toList then { b with rating := some 3 }
        else if rating_str = "Four".toList then { b with rating := some 4 }
        else if rating_str = "Five".toList then { b with rating := some 5 }
        else { b with rating := some 0 }
      | none => b
    | none => b
  | none => b

/-- The title of one article (lines 118 to 129), searched from position `pos`. -/
def parse_title (html : CppString) (pos : Nat) (b : ParsedBook) : ParsedBook :=
  match find html "<h3>".toList pos with
  | some title_start =>
    match find html pat_title title_start with
    | some title_start =>
      let title_start := title_start + 7
      match find html [dquote] title_start with
      | some title_end => { b with title := substr html title_start (title_end - title_start) }
      | none => b
    | none => b
  | none => b

/-- The price of one article (lines 131 to 143), searched from position `pos`;
`stod` is `std::stod`. -/
def parse_price (stod : CppString → ℚ) (html : CppString) (pos : Nat) (b : ParsedBook) :
    ParsedBook :=
  match find html pat_price pos with
  | some price_start =>
    let price_start := price_start + 23
    match find html "</p>".toList price_start with
    | some price_end =>
      let price_str := substr html price_start (price_end - price_start)
      match find_first_of price_str "0123456789".toList with
      | some digit_start => { b with price := some (stod (price_str.drop digit_start)) }
      | none => b
    | none => b
  | none => b

/-- The loop of `parse` over the product articles (lines 99 to 155), started at
position `pos` with the records `books` found so far; `fuel` bounds the number
of iterations. -/
def article_loop (stod : CppString → ℚ) (html : CppString) :
    Nat → Nat → List ParsedBook → List ParsedBook
  | 0, _, books => books
  | fuel + 1, pos, books =>
    match find html pat_article pos with
    | none => books
    | some pos =>
      let b : ParsedBook := { title := [], price := none, rating := none, category := [] }
      let b := parse_rating html pos b
      let b := parse_title html pos b
      let b := parse_price stod html pos b
      let books := books ++ [b]
      match find html "</article>".toList pos with
      | some article_end => article_loop stod html fuel (article_end + 10) books
      | none => article_loop stod html fuel (pos + 1) books

/-- The function `parse(html, url, category, books, new_urls)` of
`web_scraper.cpp`; `stod` is `std::stod`. Each loop is given `html.size() + 1`
iterations, which it never exhausts. -/
def parse (stod : CppString → ℚ) (html url_str : CppString) : ParseOut :=
  let category := parse_category html
  let new_urls := parse_next html
  let new_urls :=
    if find url_str "/category/".toList 0 = none then
      category_links_loop html (html.length + 1) 0 new_urls
    else new_urls
  let books :=
    if find url_str "/category/".toList 0 ≠ none then
      article_loop stod html (html.length + 1) 0 []
    else []
  { category := category, books := books, new_urls := new_urls }

/-- The value of a plain decimal numeral: the digits before the point. -/
def decimalInt : CppString → Nat → Nat × CppString
  | [], acc => (acc, [])
  | c :: cs, acc =>
    if c.isDigit then decimalInt cs (10 * acc + (c.toNat - 48)) else (acc, c :: cs)

/-- The value of a plain decimal numeral: the digits after the point, `scale`
being the weight of the next digit. -/
def decimalFrac : CppString → ℚ → ℚ → ℚ
  | [], _, acc => acc
  | c :: cs, scale, acc =>
    if c.isDigit then decimalFrac cs (scale / 10) (acc + scale * ((c.toNat - 48 : Nat) : ℚ))
    else acc

/-- What `std::stod` returns on a text that begins with a plain decimal numeral
such as `10.00`; used as `stod` in the fixtures. -/
def decimalValue (s : CppString) : ℚ :=
  match decimalInt s 0 with
  | (n, '.' :: rest) => decimalFrac rest (1 / 10) (n : ℚ)
  | (n, _) => (n : ℚ)

/-- A listing page with two product articles: the first has a title and a price
and no star-rating element, the second is rated Five. -/
def htmlMissingRating : CppString :=
  "<html><h1>Travel</h1>".toList
    ++ pat_article ++ "<h3><a href=".toList ++ quoted "a.html" ++ " title=".toList
    ++ quoted "A" ++ ">A</a></h3>".toList ++ pat_price ++ "10.00</p></article>".toList
    ++ pat_article ++ pat_star ++ "Five".toList ++ [dquote] ++ "></p>".toList
    ++ "<h3><a href=".toList ++ quoted "b.html" ++ " title=".toList
    ++ quoted "B" ++ ">B</a></h3>".toList ++ pat_price ++ "20.00</p></article>".toList
    ++ "</html>".toList

/-- A listing page with one product article that has a title and a price and no
star-rating element. -/
def htmlNoRating : CppString :=
  "<html><h1>Travel</h1>".toList
    ++ pat_article ++ "<h3><a href=".toList ++ quoted "a.html" ++ " title=".toList
    ++ quoted "A" ++ ">A</a></h3>".toList ++ pat_price ++ "10.00</p></article>".toList
    ++ "</html>".toList

/-- The record handed to `update_stats` for a record of `parse`, `indet` giving
the values read from the members that were never assigned. -/
def ParsedBook.toBook (indet : ℚ × Int) (b : ParsedBook) : Book :=
  { title := b.title
    price := b.price.getD indet.1
    rating := b.rating.getD indet.2
    category := b.category }

/-- The behaviour of the crawl on a site: `download` is the network, the
extractor is `parse`, and `indet i` gives the values read from the members of
the record number `i` of a page that were never assigned. -/
def siteEnv (download : CppString → CppString) (stod : CppString → ℚ)
    (indet : Nat → ℚ × Int) : Env :=
  { download := download
    parse := fun html url =>
      { category := (parse stod html url).category
        books := (parse stod html url).books.enum.map (fun ib => ib.2.toBook (indet ib.1))
        new_urls := (parse stod html url).new_urls } }

/-! ## Aggregator under concurrency

Every access of `update_stats` to shared state is a sequentially consistent
atomic operation or lies inside the critical section of `stats_mutex`, so a
concurrent execution is an interleaving of the steps below. -/

/-- Where a thread stands in the body of the loop of `update_stats`: before
each of its accesses to shared state. -/
inductive Pc where
  | add_total
  | add_ratings
  | add_price
  | add_bucket
  | load_min
  | cas_min
  | load_max
  | cas_max
  | locked
  deriving DecidableEq

/-- A thread inside a call of `update_stats`: the records of `local_books` it
has not finished, the head being the record `b` of the current iteration, and
its locals `curr_min` and `curr_max`. -/
structure Worker where
  books : List Book
  pc : Pc
  curr_min : ℚ
  curr_max : ℚ
  deriving DecidableEq

/-- A thread that enters `update_stats(local_books, cat)`. -/
def Worker.start (local_books : List Book) : Worker :=
  { books := local_books, pc := Pc.add_total, curr_min := 0, curr_max := 0 }

/-- The next step of a thread on the shared state: one atomic operation (lines
184 to 201), or the whole critical section of lines 204 to 210. `cas_ok = false`
makes a `compare_exchange_weak` fail spuriously. -/
def worker_step (cas_ok : Bool) (g : Globals) (w : Worker) : Globals × Worker :=
  match w.books with
  | [] => (g, w)
  | b :: rest =>
    match w.pc with
    | Pc.add_total =>
      ({ g with total_books := wrap32 (g.total_books + 1) }, { w with pc := Pc.add_ratings })
    | Pc.add_ratings =>
      ({ g with sum_ratings := double_add g.sum_ratings (b.rating : ℚ) },
        { w with pc := Pc.add_price })
    | Pc.add_price =>
      ({ g with total_price := double_add g.total_price b.price },
        { w with pc := Pc.add_bucket })
    | Pc.add_bucket =>
      (if b.rating = 1 then { g with one_star := wrap32 (g.one_star + 1) }
        else if b.rating = 2 then { g with two_stars := wrap32 (g.two_stars + 1) }
        else if b.rating = 3 then { g with three_stars := wrap32 (g.three_stars + 1) }
        else if b.rating = 4 then { g with four_stars := wrap32 (g.four_stars + 1) }
        else if b.rating = 5 then { g with five_stars := wrap32 (g.five_stars + 1) }
        else g,
        { w with pc := Pc.load_min })
    | Pc.load_min => (g, { w with curr_min := g.min_price, pc := Pc.cas_min })
    | Pc.cas_min =>
      if b.price < w.curr_min then
        if g.min_price = w.curr_min ∧ cas_ok = true then
          ({ g with min_price := b.price }, { w with pc := Pc.load_max })
        else (g, { w with curr_min := g.min_price })
      else (g, { w with pc := Pc.load_max })
    | Pc.load_max => (g, { w with curr_max := g.max_price, pc := Pc.cas_max })
    | Pc.cas_max =>
      if b.price > w.curr_max then
        if g.max_price = w.curr_max ∧ cas_ok = true then
          ({ g with max_price := b.price }, { w with pc := Pc.locked })
        else (g, { w with curr_max := g.max_price })
      else (g, { w with pc := Pc.locked })
    | Pc.locked =>
      let g :=
        if b.price < g.min_book.price then
          { g with min_book := { title := b.title, rating := b.rating, price := b.price } }
        else g
      let g :=
        if b.price > g.max_book.price then
          { g with max_book := { title := b.title, rating := b.rating, price := b.price } }
        else g
      (g, { w with books := rest, pc := Pc.add_total })

/-- A concurrent execution of several calls of `update_stats`: each entry of the
schedule names the thread that takes the next step and says whether a
`compare_exchange_weak` it performs may succeed. -/
def conc_run : List (Nat × Bool) → Globals → List Worker → Globals × List Worker
  | [], g, ws => (g, ws)
  | (i, cas_ok) :: sched, g, ws =>
    match ws[i]? with
    | some w =>
      conc_run sched (worker_step cas_ok g w).1 (ws.set i (worker_step cas_ok g w).2)
    | none => conc_run sched g ws

/-- The compare-and-swap loop on `min_price` of the current record is over. -/
def Pc.afterMin : Pc → Bool
  | Pc.load_max => true
  | Pc.cas_max => true
  | Pc.locked => true
  | _ => false

/-- What holds of a thread in every state of a concurrent execution. -/
def WorkerOk (g : Globals) (w : Worker) : Prop :=
  ∀ b rest, w.books = b :: rest →
    (w.pc = Pc.cas_min → g.min_price ≤ w.curr_min)
    ∧ (w.pc.afterMin = true → g.min_price ≤ b.price)
    ∧ (w.pc = Pc.cas_max → w.curr_max ≤ g.max_price)
    ∧ (w.pc = Pc.locked → b.price ≤ g.max_price)

/-- The thread has lowered `min_price` to at most the price of its current
record and has not yet reached the end of the critical section. -/
def MinWit (g : Globals) (w : Worker) : Prop :=
  ∃ b rest, w.books = b :: rest ∧ w.pc.afterMin = true ∧ b.price ≤ g.min_price

/-- The thread has raised `max_price` to at least the price of its current
record and has not yet reached the end of the critical section. -/
def MaxWit (g : Globals) (w : Worker) : Prop :=
  ∃ b rest, w.books = b :: rest ∧ w.pc = Pc.locked ∧ g.max_price ≤ b.price

/-- What holds in every state of a concurrent execution started with
`min_book.price = min_price` and `max_book.price = max_price`. -/
structure ConcInv (g : Globals) (ws : List Worker) : Prop where
  min_le : g.min_price ≤ g.min_book.price
  max_le : g.max_book.price ≤ g.max_price
  ok : ∀ w ∈ ws, WorkerOk g w
  min_just : g.min_book.price ≤ g.min_price ∨ ∃ w ∈ ws, MinWit g w
  max_just : g.max_price ≤ g.max_book.price ∨ ∃ w ∈ ws, MaxWit g w

/-- A schedule for two threads: they alternate for twelve steps each, then the
first thread runs alone. -/
def raceSchedule : List (Nat × Bool) :=
  (List.replicate 12 [(0, true), (1, true)]).flatten ++ List.replicate 20 (0, true)

/-! ## Aggregator: what one record changes -/

/-- Field by field, what `update_one` computes. -/
theorem update_one_eq (g : Globals) (b : Book) :
    update_one g b =
      { visited := g.visited
        categories := g.categories
        total_books := wrap32 (g.total_books + 1)
        one_star := if b.rating = 1 then wrap32 (g.one_star + 1) else g.one_star
        two_stars := if b.rating = 2 then wrap32 (g.two_stars + 1) else g.two_stars
        three_stars := if b.rating = 3 then wrap32 (g.three_stars + 1) else g.three_stars
        four_stars := if b.rating = 4 then wrap32 (g.four_stars + 1) else g.four_stars
        five_stars := if b.rating = 5 then wrap32 (g.five_stars + 1) else g.five_stars
        sum_ratings := double_add g.sum_ratings (b.rating : ℚ)
        total_price := double_add g.total_price b.price
        max_price := if b.price > g.max_price then b.price else g.max_price
        min_price := if b.price < g.min_price then b.price else g.min_price
        min_book := if b.price < g.min_book.price then b.info else g.min_book
        max_book := if b.price > g.max_book.price then b.info else g.max_book } := by
  by_cases hm : b.price < g.min_price <;> by_cases hx : b.price > g.max_price <;>
  by_cases hmb : b.price < g.min_book.price <;> by_cases hxb : b.price > g.max_book.price <;>
  by_cases h1 : b.rating = 1 <;> by_cases h2 : b.rating = 2 <;> by_cases h3 : b.rating = 3 <;>
  by_cases h4 : b.rating = 4 <;> by_cases h5 : b.rating = 5 <;>
  first
  | (exfalso; omega)
  | simp [update_one, Book.info, hm, hx, hmb, hxb, h1, h2, h3, h4, h5]


theorem update_stats_nil (c : CppString) (g : Globals) : update_stats [] c g = g := rfl

theorem update_stats_cons (b : Book) (l : List Book) (c : CppString) (g : Globals) :
    update_stats (b :: l) c g = update_stats l c (update_one g b) := rfl

theorem update_stats_append (l₁ l₂ : List Book) (c₁ c₂ c : CppString) (g : Globals) :
    update_stats l₂ c₂ (update_stats l₁ c₁ g) = update_stats (l₁ ++ l₂) c g := by
  simp [update_stats, List.foldl_append]

theorem update_stats_cat (l : List Book) (c₁ c₂ : CppString) (g : Globals) :
    update_stats l c₁ g = update_stats l c₂ g := rfl

/-- A sequence of calls of `update_stats` is one call on the concatenated batches. -/
theorem update_stats_calls (calls : List (List Book × CppString)) (g : Globals) :
    calls.foldl (fun s c => update_stats c.1 c.2 s) g
      = update_stats (calls.flatMap (fun c => c.1)) [] g := by
  induction calls generalizing g with
  | nil => rfl
  | cons c cs ih =>
    rw [List.foldl_cons, ih, List.flatMap_cons, ← update_stats_append c.1 _ c.2 [] []]

/-! ## Aggregator: closed forms for a batch -/

theorem update_stats_visited (l : List Book) (c : CppString) (g : Globals) :
    (update_stats l c g).visited = g.visited := by
  induction l generalizing g with
  | nil => rfl
  | cons b l ih => rw [update_stats_cons, ih, update_one_eq]

theorem update_stats_categories (l : List Book) (c : CppString) (g : Globals) :
    (update_stats l c g).categories = g.categories := by
  induction l generalizing g with
  | nil => rfl
  | cons b l ih => rw [update_stats_cons, ih, update_one_eq]

theorem wrapAdd_zero (t : Int) : wrapAdd t 0 = t := rfl

theorem wrapAdd_step (t : Int) (n : Nat) : wrapAdd (wrap32 (t + 1)) n = wrapAdd t (n + 1) := by
  unfold wrapAdd
  by_cases h : n = 0
  · subst h; simp
  · simp only [h, if_false, Nat.succ_ne_zero]
    unfold wrap32
    push_cast
    omega

/-- A counter that does not leave the range of `int` is not wrapped. -/
theorem wrapAdd_exact (t : Int) (n : Nat) (hlo : -2147483648 ≤ t)
    (hhi : t + (n : Int) < 2147483648) : wrapAdd t n = t + (n : Int) := by
  unfold wrapAdd
  by_cases h : n = 0
  · subst h; simp
  · simp only [h, if_false]
    unfold wrap32
    omega

theorem update_stats_total_books (l : List Book) (c : CppString) (g : Globals) :
    (update_stats l c g).total_books = wrapAdd g.total_books l.length := by
  induction l generalizing g with
  | nil => rfl
  | cons b l ih =>
    rw [update_stats_cons, ih, update_one_eq, List.length_cons]
    exact wrapAdd_step _ _

/-- The sum in `total_price` is built by one rounded addition per record, in
the order of the batch. -/
theorem update_stats_total_price (l : List Book) (c : CppString) (g : Globals) :
    (update_stats l c g).total_price
      = l.foldl (fun t b => double_add t b.price) g.total_price := by
  induction l generalizing g with
  | nil => rfl
  | cons b l ih => rw [update_stats_cons, ih, update_one_eq, List.foldl_cons]

/-- The sum in `sum_ratings` is built by one rounded addition per record, in
the order of the batch. -/
theorem update_stats_sum_ratings (l : List Book) (c : CppString) (g : Globals) :
    (update_stats l c g).sum_ratings
      = l.foldl (fun t b => double_add t (b.rating : ℚ)) g.sum_ratings := by
  induction l generalizing g with
  | nil => rfl
  | cons b l ih => rw [update_stats_cons, ih, update_one_eq, List.foldl_cons]

/-- A rounded sum is the exact sum when no partial sum is rounded. -/
theorem foldl_double_add_exact (f : Book → ℚ) (l : List Book) (t : ℚ)
    (h : ∀ p, p <+: l → roundDouble (t + (p.map f).sum) = t + (p.map f).sum) :
    l.foldl (fun t b => double_add t (f b)) t = t + (l.map f).sum := by
  induction l using List.reverseRecOn with
  | nil => simp
  | append_singleton p b ih =>
    rw [List.foldl_append, List.foldl_cons, List.foldl_nil,
      ih (fun q hq => h q (hq.trans (List.prefix_append p [b])))]
    have := h (p ++ [b]) (List.prefix_refl _)
    simp only [List.map_append, List.sum_append, List.map_cons, List.map_nil, List.sum_cons,
      List.sum_nil, add_zero] at this
    unfold double_add
    simp only [List.map_append, List.sum_append, List.map_cons, List.map_nil, List.sum_cons,
      List.sum_nil, add_zero]
    rw [← add_assoc] at this ⊢
    exact this

/-- The number of records of a batch whose rating is `r`. -/
theorem countP_rating_cons (r : Int) (b : Book) (l : List Book) :
    (((b :: l).countP (fun x => decide (x.rating = r)) : Nat) : Int)
      = (if b.rating = r then 1 else 0) + (l.countP (fun x => decide (x.rating = r)) : Int) := by
  by_cases h : b.rating = r
  · simp [List.countP_cons, h]; ring
  · simp [List.countP_cons, h]

theorem wrapAdd_countP_cons (t : Int) (r : Int) (b : Book) (l : List Book) :
    wrapAdd (if b.rating = r then wrap32 (t + 1) else t)
        (l.countP (fun x => decide (x.rating = r)))
      = wrapAdd t ((b :: l).countP (fun x => decide (x.rating = r))) := by
  by_cases h : b.rating = r
  · rw [if_pos h, List.countP_cons_of_pos _ _ (by simpa using h)]
    exact wrapAdd_step _ _
  · rw [if_neg h, List.countP_cons_of_neg _ _ (by simpa using h)]

theorem update_stats_one_star (l : List Book) (c : CppString) (g : Globals) :
    (update_stats l c g).one_star
      = wrapAdd g.one_star (l.countP (fun b => decide (b.rating = 1))) := by
  induction l generalizing g with
  | nil => rfl
  | cons b l ih => rw [update_stats_cons, ih, update_one_eq]; exact wrapAdd_countP_cons _ _ _ _

theorem update_stats_two_stars (l : List Book) (c : CppString) (g : Globals) :
    (update_stats l c g).two_stars
      = wrapAdd g.two_stars (l.countP (fun b => decide (b.rating = 2))) := by
  induction l generalizing g with
  | nil => rfl
  | cons b l ih => rw [update_stats_cons, ih, update_one_eq]; exact wrapAdd_countP_cons _ _ _ _

theorem update_stats_three_stars (l : List Book) (c : CppString) (g : Globals) :
    (update_stats l c g).three_stars
      = wrapAdd g.three_stars (l.countP (fun b => decide (b.rating = 3))) := by
  induction l generalizing g with
  | nil => rfl
  | cons b l ih => rw [update_stats_cons, ih, update_one_eq]; exact wrapAdd_countP_cons _ _ _ _

theorem update_stats_four_stars (l : List Book) (c : CppString) (g : Globals) :
    (update_stats l c g).four_stars
      = wrapAdd g.four_stars (l.countP (fun b => decide (b.rating = 4))) := by
  induction l generalizing g with
  | nil => rfl
  | cons b l ih => rw [update_stats_cons, ih, update_one_eq]; exact wrapAdd_countP_cons _ _ _ _

theorem update_stats_five_stars (l : List Book) (c : CppString) (g : Globals) :
    (update_stats l c g).five_stars
      = wrapAdd g.five_stars (l.countP (fun b => decide (b.rating = 5))) := by
  induction l generalizing g with
  | nil => rfl
  | cons b l ih => rw [update_stats_cons, ih, update_one_eq]; exact wrapAdd_countP_cons _ _ _ _

theorem update_stats_min_price (l : List Book) (c : CppString) (g : Globals) :
    (update_stats l c g).min_price = l.foldl (fun m b => min m b.price) g.min_price := by
  induction l generalizing g with
  | nil => rfl
  | cons b l ih =>
    rw [update_stats_cons, ih, update_one_eq, List.foldl_cons]
    congr 1
    by_cases h : b.price < g.min_price
    · simp [h, min_eq_right h.le]
    · simp [h, min_eq_left (not_lt.mp h)]

theorem update_stats_max_price (l : List Book) (c : CppString) (g : Globals) :
    (update_stats l c g).max_price = l.foldl (fun m b => max m b.price) g.max_price := by
  induction l generalizing g with
  | nil => rfl
  | cons b l ih =>
    rw [update_stats_cons, ih, update_one_eq, List.foldl_cons]
    congr 1
    by_cases h : b.price > g.max_price
    · simp [h, max_eq_right (le_of_lt h)]
    · simp [h, max_eq_left (not_lt.mp h)]

theorem update_stats_min_book_price (l : List Book) (c : CppString) (g : Globals) :
    (update_stats l c g).min_book.price
      = l.foldl (fun m b => min m b.price) g.min_book.price := by
  induction l generalizing g with
  | nil => rfl
  | cons b l ih =>
    rw [update_stats_cons, ih, update_one_eq, List.foldl_cons]
    congr 1
    by_cases h : b.price < g.min_book.price
    · simp [h, Book.info, min_eq_right h.le]
    · simp [h, min_eq_left (not_lt.mp h)]

theorem update_stats_max_book_price (l : List Book) (c : CppString) (g : Globals) :
    (update_stats l c g).max_book.price
      = l.foldl (fun m b => max m b.price) g.max_book.price := by
  induction l generalizing g with
  | nil => rfl
  | cons b l ih =>
    rw [update_stats_cons, ih, update_one_eq, List.foldl_cons]
    congr 1
    by_cases h : b.price > g.max_book.price
    · simp [h, Book.info, max_eq_right (le_of_lt h)]
    · simp [h, max_eq_left (not_lt.mp h)]

/-! ## Aggregator: the extremum records -/

/-- After a batch, `min_book` is either untouched, and then no record of the
batch is cheaper than it, or it is a cheapest record of the batch, strictly
cheaper than the record held before. -/
theorem update_stats_min_book_cases (l : List Book) (c : CppString) (g : Globals) :
    ((update_stats l c g).min_book = g.min_book ∧ ∀ b ∈ l, g.min_book.price ≤ b.price)
    ∨ (∃ b ∈ l, (update_stats l c g).min_book = b.info ∧ b.price < g.min_book.price
        ∧ ∀ b' ∈ l, b.price ≤ b'.price) := by
  induction l generalizing g with
  | nil => left; simp [update_stats_nil]
  | cons b l ih =>
    rw [update_stats_cons]
    have hg : (update_one g b).min_book
        = if b.price < g.min_book.price then b.info else g.min_book := by
      rw [update_one_eq]
    by_cases h : b.price < g.min_book.price
    · rw [if_pos h] at hg
      rcases ih (update_one g b) with ⟨e, hall⟩ | ⟨b2, hb2, e, hlt, hall⟩
      · right
        refine ⟨b, List.mem_cons_self _ _, by rw [e, hg], h, ?_⟩
        intro b' hb'
        rcases List.mem_cons.mp hb' with rfl | hb'
        · exact le_refl _
        · have := hall b' hb'
          rwa [hg] at this
      · right
        rw [hg] at hlt
        have hlt' : b2.price < b.price := hlt
        refine ⟨b2, List.mem_cons_of_mem _ hb2, e, lt_trans hlt' h, ?_⟩
        intro b' hb'
        rcases List.mem_cons.mp hb' with rfl | hb'
        · exact hlt'.le
        · exact hall b' hb'
    · rw [if_neg h] at hg
      rcases ih (update_one g b) with ⟨e, hall⟩ | ⟨b2, hb2, e, hlt, hall⟩
      · left
        refine ⟨by rw [e, hg], ?_⟩
        intro b' hb'
        rcases List.mem_cons.mp hb' with rfl | hb'
        · exact not_lt.mp h
        · have := hall b' hb'
          rwa [hg] at this
      · right
        rw [hg] at hlt
        refine ⟨b2, List.mem_cons_of_mem _ hb2, e, hlt, ?_⟩
        intro b' hb'
        rcases List.mem_cons.mp hb' with rfl | hb'
        · exact le_trans hlt.le (not_lt.mp h)
        · exact hall b' hb'

/-- After a batch, `max_book` is either untouched, and then no record of the
batch is dearer than it, or it is a dearest record of the batch, strictly
dearer than the record held before. -/
theorem update_stats_max_book_cases (l : List Book) (c : CppString) (g : Globals) :
    ((update_stats l c g).max_book = g.max_book ∧ ∀ b ∈ l, b.price ≤ g.max_book.price)
    ∨ (∃ b ∈ l, (update_stats l c g).max_book = b.info ∧ g.max_book.price < b.price
        ∧ ∀ b' ∈ l, b'.price ≤ b.price) := by
  induction l generalizing g with
  | nil => left; simp [update_stats_nil]
  | cons b l ih =>
    rw [update_stats_cons]
    have hg : (update_one g b).max_book
        = if b.price > g.max_book.price then b.info else g.max_book := by
      rw [update_one_eq]
    by_cases h : b.price > g.max_book.price
    · rw [if_pos h] at hg
      rcases ih (update_one g b) with ⟨e, hall⟩ | ⟨b2, hb2, e, hlt, hall⟩
      · right
        refine ⟨b, List.mem_cons_self _ _, by rw [e, hg], h, ?_⟩
        intro b' hb'
        rcases List.mem_cons.mp hb' with rfl | hb'
        · exact le_refl _
        · have := hall b' hb'
          rwa [hg] at this
      · right
        rw [hg] at hlt
        have hlt' : b.price < b2.price := hlt
        refine ⟨b2, List.mem_cons_of_mem _ hb2, e, lt_trans h hlt', ?_⟩
        intro b' hb'
        rcases List.mem_cons.mp hb' with rfl | hb'
        · exact hlt'.le
        · exact hall b' hb'
    · rw [if_neg h] at hg
      rcases ih (update_one g b) with ⟨e, hall⟩ | ⟨b2, hb2, e, hlt, hall⟩
      · left
        refine ⟨by rw [e, hg], ?_⟩
        intro b' hb'
        rcases List.mem_cons.mp hb' with rfl | hb'
        · exact not_lt.mp h
        · have := hall b' hb'
          rwa [hg] at this
      · right
        rw [hg] at hlt
        refine ⟨b2, List.mem_cons_of_mem _ hb2, e, hlt, ?_⟩
        intro b' hb'
        rcases List.mem_cons.mp hb' with rfl | hb'
        · exact le_trans (not_lt.mp h) hlt.le
        · exact hall b' hb'

/-! ## Aggregator: order of the records -/

theorem foldl_min_perm {l₁ l₂ : List Book} (h : l₁.Perm l₂) (m : ℚ) :
    l₁.foldl (fun m b => min m b.price) m = l₂.foldl (fun m b => min m b.price) m :=
  h.foldl_eq' (fun x _ y _ z => min_right_comm z x.price y.price) m

theorem foldl_max_perm {l₁ l₂ : List Book} (h : l₁.Perm l₂) (m : ℚ) :
    l₁.foldl (fun m b => max m b.price) m = l₂.foldl (fun m b => max m b.price) m :=
  h.foldl_eq' (fun x _ y _ z => by
    rw [max_assoc, max_comm x.price y.price, ← max_assoc]) m

/-- The counters and the scalar extrema after a batch do not depend on the
order of the batch. -/
theorem update_stats_perm_counts {l₁ l₂ : List Book} (h : l₁.Perm l₂)
    (c₁ c₂ : CppString) (g : Globals) :
    SameCounts (update_stats l₁ c₁ g) (update_stats l₂ c₂ g) := by
  refine ⟨?_, ?_, ?_, ?_, ?_, ?_, ?_, ?_⟩
  · rw [update_stats_total_books, update_stats_total_books, h.length_eq]
  · rw [update_stats_one_star, update_stats_one_star, h.countP_eq]
  · rw [update_stats_two_stars, update_stats_two_stars, h.countP_eq]
  · rw [update_stats_three_stars, update_stats_three_stars, h.countP_eq]
  · rw [update_stats_four_stars, update_stats_four_stars, h.countP_eq]
  · rw [update_stats_five_stars, update_stats_five_stars, h.countP_eq]
  · rw [update_stats_min_price, update_stats_min_price, foldl_min_perm h]
  · rw [update_stats_max_price, update_stats_max_price, foldl_max_perm h]

/-- The sum of the prices after a batch is the exact sum when no addition along
the batch is rounded. -/
theorem update_stats_total_price_exact (l : List Book) (c : CppString) (g : Globals)
    (hx : ∀ p : List Book, p <+: l →
      IsDouble (g.total_price + (p.map (fun b => b.price)).sum)) :
    (update_stats l c g).total_price = g.total_price + (l.map (fun b => b.price)).sum := by
  rw [update_stats_total_price]
  exact foldl_double_add_exact (fun b => b.price) l _ (fun p hp => (hx p hp).1)

/-- The sum of the ratings after a batch is the exact sum when no addition
along the batch is rounded. -/
theorem update_stats_sum_ratings_exact (l : List Book) (c : CppString) (g : Globals)
    (hx : ∀ p : List Book, p <+: l →
      IsDouble (g.sum_ratings + (p.map (fun b => (b.rating : ℚ))).sum)) :
    (update_stats l c g).sum_ratings
      = g.sum_ratings + (l.map (fun b => (b.rating : ℚ))).sum := by
  rw [update_stats_sum_ratings]
  exact foldl_double_add_exact (fun b => (b.rating : ℚ)) l _ (fun p hp => (hx p hp).1)

/-- The prices held in `min_book` and `max_book` after a batch do not depend on
the order of the batch. -/
theorem update_stats_perm_book_price {l₁ l₂ : List Book} (h : l₁.Perm l₂)
    (c₁ c₂ : CppString) (g : Globals) :
    (update_stats l₁ c₁ g).min_book.price = (update_stats l₂ c₂ g).min_book.price
    ∧ (update_stats l₁ c₁ g).max_book.price = (update_stats l₂ c₂ g).max_book.price := by
  constructor
  · rw [update_stats_min_book_price, update_stats_min_book_price, foldl_min_perm h]
  · rw [update_stats_max_book_price, update_stats_max_book_price, foldl_max_perm h]

/-- When the records of least price carry the same title and rating, `min_book`
after a batch does not depend on the order of the batch. -/
theorem update_stats_perm_min_book {l₁ l₂ : List Book} (h : l₁.Perm l₂)
    (tie : ∀ a ∈ l₁, ∀ b ∈ l₁, (∀ c ∈ l₁, a.price ≤ c.price) → a.price = b.price →
      a.info = b.info)
    (c₁ c₂ : CppString) (g : Globals) :
    (update_stats l₁ c₁ g).min_book = (update_stats l₂ c₂ g).min_book := by
  rcases update_stats_min_book_cases l₁ c₁ g with ⟨e₁, h₁⟩ | ⟨b₁, m₁, e₁, lt₁, h₁⟩ <;>
  rcases update_stats_min_book_cases l₂ c₂ g with ⟨e₂, h₂⟩ | ⟨b₂, m₂, e₂, lt₂, h₂⟩
  · rw [e₁, e₂]
  · exact absurd lt₂ (not_lt.mpr (h₁ b₂ (h.mem_iff.mpr m₂)))
  · exact absurd lt₁ (not_lt.mpr (h₂ b₁ (h.mem_iff.mp m₁)))
  · rw [e₁, e₂]
    have m₂' : b₂ ∈ l₁ := h.mem_iff.mpr m₂
    exact tie b₁ m₁ b₂ m₂' h₁ (le_antisymm (h₁ b₂ m₂') (h₂ b₁ (h.mem_iff.mp m₁)))

/-- When the records of greatest price carry the same title and rating,
`max_book` after a batch does not depend on the order of the batch. -/
theorem update_stats_perm_max_book {l₁ l₂ : List Book} (h : l₁.Perm l₂)
    (tie : ∀ a ∈ l₁, ∀ b ∈ l₁, (∀ c ∈ l₁, c.price ≤ a.price) → a.price = b.price →
      a.info = b.info)
    (c₁ c₂ : CppString) (g : Globals) :
    (update_stats l₁ c₁ g).max_book = (update_stats l₂ c₂ g).max_book := by
  rcases update_stats_max_book_cases l₁ c₁ g with ⟨e₁, h₁⟩ | ⟨b₁, m₁, e₁, lt₁, h₁⟩ <;>
  rcases update_stats_max_book_cases l₂ c₂ g with ⟨e₂, h₂⟩ | ⟨b₂, m₂, e₂, lt₂, h₂⟩
  · rw [e₁, e₂]
  · exact absurd lt₂ (not_lt.mpr (h₁ b₂ (h.mem_iff.mpr m₂)))
  · exact absurd lt₁ (not_lt.mpr (h₂ b₁ (h.mem_iff.mp m₁)))
  · rw [e₁, e₂]
    have m₂' : b₂ ∈ l₁ := h.mem_iff.mpr m₂
    exact tie b₁ m₁ b₂ m₂' h₁ (le_antisymm (h₂ b₁ (h.mem_iff.mp m₁)) (h₁ b₂ m₂'))

theorem info_eq_of_title_rating {a b : Book} (hp : a.price = b.price)
    (h : a.title = b.title ∧ a.rating = b.rating) : a.info = b.info := by
  simp [Book.info, hp, h.1, h.2]

theorem countP_outside_cons (b : Book) (l : List Book) :
    (((b :: l).countP (fun x => decide (x.rating < 1 ∨ 5 < x.rating)) : Nat) : Int)
      = (if b.rating < 1 ∨ 5 < b.rating then 1 else 0)
        + (l.countP (fun x => decide (x.rating < 1 ∨ 5 < x.rating)) : Int) := by
  by_cases h : b.rating < 1 ∨ 5 < b.rating
  · rw [List.countP_cons_of_pos _ _ (by simpa using h), if_pos h]; push_cast; ring
  · rw [List.countP_cons_of_neg _ _ (by simpa using h), if_neg h]; ring

/-- The batch splits into the five rating classes and the rest. -/
theorem length_eq_rating_classes (l : List Book) :
    (l.length : Int)
      = (l.countP (fun b => decide (b.rating = 1)) : Int)
        + (l.countP (fun b => decide (b.rating = 2)) : Int)
        + (l.countP (fun b => decide (b.rating = 3)) : Int)
        + (l.countP (fun b => decide (b.rating = 4)) : Int)
        + (l.countP (fun b => decide (b.rating = 5)) : Int)
        + (l.countP (fun b => decide (b.rating < 1 ∨ 5 < b.rating)) : Int) := by
  induction l with
  | nil => simp
  | cons b l ih =>
    rw [countP_rating_cons, countP_rating_cons, countP_rating_cons, countP_rating_cons,
      countP_rating_cons, countP_outside_cons, List.length_cons]
    push_cast
    rw [ih]
    split_ifs <;> omega


theorem wrapAdd_zero_left (n : Nat) : wrapAdd 0 n = wrap32 (n : Int) := by
  unfold wrapAdd
  by_cases h : n = 0
  · subst h; rfl
  · simp only [h, if_false, zero_add]

theorem wrap32_small (n : Nat) (h : n < 2147483648) : wrap32 (n : Int) = (n : Int) := by
  unfold wrap32
  omega
/-! ## Crawl engine: one task -/

theorem serial_loop_cons (env : Env) (fuel : Nat) (c : Crawl) (url : CppString)
    (q : List CppString) :
    serial_loop env (fuel + 1) c (url :: q)
      = serial_loop env fuel (visit env c url).1 (q ++ (visit env c url).2) := by
  rcases c with ⟨g, d⟩
  by_cases hv : url ∈ g.visited
  · simp [serial_loop, visit, concurrent_insert, hv]
  · by_cases hd : (env.download url).isEmpty = true
    · simp [serial_loop, visit, concurrent_insert, hv, hd]
    · by_cases hc : (env.parse (env.download url) url).category.isEmpty = true
      · simp [serial_loop, visit, concurrent_insert, hv, hd, hc]
      · simp [serial_loop, visit, concurrent_insert, hv, hd, hc]

theorem scrape_loop_cons (env : Env) (i : Nat) (sched : List Nat) (c : Crawl)
    (t : CppString) (ts : List CppString) :
    scrape_loop env (i :: sched) c (t :: ts)
      = scrape_loop env sched
          (visit env c ((t :: ts).getD (i % (t :: ts).length) t)).1
          ((t :: ts).eraseIdx (i % (t :: ts).length)
            ++ (visit env c ((t :: ts).getD (i % (t :: ts).length) t)).2) := by
  rcases c with ⟨g, d⟩
  conv_lhs => rw [scrape_loop]
  dsimp only
  generalize (t :: ts).getD (i % (t :: ts).length) t = url
  generalize (t :: ts).eraseIdx (i % (t :: ts).length) = rest
  by_cases hv : url ∈ g.visited
  · simp [visit, concurrent_insert, hv]
  · by_cases hd : (env.download url).isEmpty = true
    · simp [visit, concurrent_insert, hv, hd]
    · by_cases hc : (env.parse (env.download url) url).category.isEmpty = true
      · simp [visit, concurrent_insert, hv, hd, hc]
      · simp [visit, concurrent_insert, hv, hd, hc]

/-- The serial crawl is the parallel crawl under the schedule that always runs
the oldest task. -/
theorem serial_loop_eq_scrape_loop (env : Env) (fuel : Nat) (c : Crawl)
    (q : List CppString) :
    serial_loop env fuel c q = scrape_loop env (List.replicate fuel 0) c q := by
  induction fuel generalizing c q with
  | zero => cases q <;> simp [serial_loop, scrape_loop]
  | succ n ih =>
    cases q with
    | nil => simp [serial_loop, scrape_loop]
    | cons url q =>
      rw [serial_loop_cons, List.replicate_succ, scrape_loop_cons, ih]
      simp

theorem statsOf_update_one (g : Globals) (b : Book) :
    statsOf (update_one g b) = update_one (statsOf g) b := by
  rw [update_one_eq, update_one_eq]
  rfl

theorem statsOf_update_stats (l : List Book) (c₁ c₂ : CppString) (g : Globals) :
    statsOf (update_stats l c₁ g) = update_stats l c₂ (statsOf g) := by
  induction l generalizing g with
  | nil => rfl
  | cons b l ih => rw [update_stats_cons, update_stats_cons, ih, statsOf_update_one]

/-- A task on a URL that is already in `visited` changes nothing. -/
theorem visit_old (env : Env) (c : Crawl) (url : CppString) (hv : url ∈ c.g.visited) :
    visit env c url = (c, []) := by
  simp [visit, hv]

/-- A task on a URL that is not in `visited`: the URL is claimed and downloaded,
the records of its page are aggregated and its links are returned. -/
theorem visit_new (env : Env) (c : Crawl) (url : CppString) (hv : url ∉ c.g.visited) :
    (visit env c url).2 = linksOf env url
    ∧ (visit env c url).1.downloads = c.downloads ++ [url]
    ∧ (visit env c url).1.g.visited = insert url c.g.visited
    ∧ statsOf (visit env c url).1.g = update_stats (booksOf env url) [] (statsOf c.g) := by
  by_cases hd : (env.download url).isEmpty = true
  · simp [visit, hv, hd, linksOf, booksOf, update_stats_nil, statsOf]
  · by_cases hc : (env.parse (env.download url) url).category.isEmpty = true
    · simp only [visit, hv, hd, hc, linksOf, booksOf, if_false, if_true, Bool.false_eq_true]
      refine ⟨trivial, trivial, update_stats_visited _ _ _, ?_⟩
      rw [statsOf_update_stats _ _ []]
      rfl
    · simp only [visit, hv, hd, hc, linksOf, booksOf, if_false, if_true, Bool.false_eq_true]
      refine ⟨trivial, trivial, update_stats_visited _ _ _, ?_⟩
      rw [statsOf_update_stats _ _ []]
      rfl

/-- Taking the entry at position `k` out of a list leaves a permutation. -/
theorem perm_getD_cons_eraseIdx {α : Type} (l : List α) (k : Nat) (d : α)
    (hk : k < l.length) : l.Perm (l.getD k d :: l.eraseIdx k) := by
  induction l generalizing k with
  | nil => simp at hk
  | cons a l ih =>
    cases k with
    | zero => simp
    | succ k =>
      have hk' : k < l.length := by simpa using hk
      have := ih k hk'
      simp only [List.getD_cons_succ, List.eraseIdx_cons_succ]
      exact (List.Perm.cons a this).trans (List.Perm.swap _ _ _)

/-! ## Crawl engine: the invariant -/

theorem crawlInv_init (env : Env) (start : CppString) (g : Globals) :
    CrawlInv env start { g := reset_globals g, downloads := [] } [start] where
  nodup := List.nodup_nil
  visited_eq := rfl
  stats := rfl
  start_mem := Or.inr (List.mem_singleton_self _)
  closed := fun u hu => absurd hu (Finset.not_mem_empty u)
  least := fun S hs _ =>
    ⟨fun u hu => absurd hu (Finset.not_mem_empty u),
      fun u hu => by rw [List.mem_singleton.mp hu]; exact hs⟩

/-- Running the task on `url`, one of the pending tasks, keeps the invariant. -/
theorem crawlInv_visit (env : Env) (start : CppString) (c : Crawl)
    (pool rest : List CppString) (url : CppString)
    (h : CrawlInv env start c pool) (hp : pool.Perm (url :: rest)) :
    CrawlInv env start (visit env c url).1 (rest ++ (visit env c url).2) := by
  have hmem : ∀ x, x ∈ pool ↔ x = url ∨ x ∈ rest := fun x => by
    rw [hp.mem_iff, List.mem_cons]
  by_cases hv : url ∈ c.g.visited
  · rw [visit_old env c url hv, List.append_nil]
    refine ⟨h.nodup, h.visited_eq, h.stats, ?_, ?_, ?_⟩
    · rcases h.start_mem with hs | hs
      · exact Or.inl hs
      · rcases (hmem _).mp hs with e | hs
        · exact Or.inl (e ▸ hv)
        · exact Or.inr hs
    · intro u hu v hv'
      rcases h.closed u hu v hv' with hs | hs
      · exact Or.inl hs
      · rcases (hmem _).mp hs with e | hs
        · exact Or.inl (e ▸ hv)
        · exact Or.inr hs
    · intro S hs hc
      exact ⟨(h.least S hs hc).1, fun u hu => (h.least S hs hc).2 u ((hmem u).mpr (Or.inr hu))⟩
  · obtain ⟨e2, ed, ev, es⟩ := visit_new env c url hv
    have hnd : url ∉ c.downloads := by
      intro hm
      exact hv (by rw [h.visited_eq]; exact List.mem_toFinset.mpr hm)
    refine ⟨?_, ?_, ?_, ?_, ?_, ?_⟩
    · rw [ed]
      exact List.Nodup.append h.nodup (List.nodup_singleton _)
        (by simpa using hnd)
    · rw [ev, ed, h.visited_eq]
      ext x
      simp [or_comm]
    · rw [es, ed, h.stats, update_stats_append _ _ _ _ [], List.flatMap_append]
      simp [List.flatMap_cons, reset_globals]
    · rw [ev]
      rcases h.start_mem with hs | hs
      · exact Or.inl (Finset.mem_insert_of_mem hs)
      · rcases (hmem _).mp hs with e | hs
        · exact Or.inl (e ▸ Finset.mem_insert_self _ _)
        · exact Or.inr (List.mem_append_left _ hs)
    · rw [ev, e2]
      intro u hu v hv'
      rcases Finset.mem_insert.mp hu with e | hu
      · subst e
        exact Or.inr (List.mem_append_right _ hv')
      · rcases h.closed u hu v hv' with hs | hs
        · exact Or.inl (Finset.mem_insert_of_mem hs)
        · rcases (hmem _).mp hs with e | hs
          · exact Or.inl (e ▸ Finset.mem_insert_self _ _)
          · exact Or.inr (List.mem_append_left _ hs)
    · rw [ev, e2]
      intro S hs hc
      have hurl : url ∈ S := (h.least S hs hc).2 url ((hmem url).mpr (Or.inl rfl))
      refine ⟨fun u hu => ?_, fun u hu => ?_⟩
      · rcases Finset.mem_insert.mp hu with e | hu
        · exact e ▸ hurl
        · exact (h.least S hs hc).1 u hu
      · rcases List.mem_append.mp hu with hu | hu
        · exact (h.least S hs hc).2 u ((hmem u).mpr (Or.inr hu))
        · exact hc url hurl u hu

/-- The invariant holds when the parallel crawl returns, under every schedule. -/
theorem crawlInv_scrape_loop (env : Env) (start : CppString) (sched : List Nat)
    (c : Crawl) (pool : List CppString) (c' : Crawl)
    (h : CrawlInv env start c pool) (hr : scrape_loop env sched c pool = some c') :
    CrawlInv env start c' [] := by
  induction sched generalizing c pool with
  | nil =>
    cases pool with
    | nil =>
      simp only [scrape_loop, Option.some.injEq] at hr
      exact hr ▸ h
    | cons t ts => simp [scrape_loop] at hr
  | cons i sched ih =>
    cases pool with
    | nil =>
      simp only [scrape_loop, Option.some.injEq] at hr
      exact hr ▸ h
    | cons t ts =>
      rw [scrape_loop_cons] at hr
      refine ih _ _ (crawlInv_visit env start c (t :: ts) _ _ h ?_) hr
      exact perm_getD_cons_eraseIdx (t :: ts) _ t (Nat.mod_lt _ (by simp))

/-- The invariant holds when the serial crawl returns. -/
theorem crawlInv_serial_loop (env : Env) (start : CppString) (fuel : Nat)
    (c : Crawl) (q : List CppString) (c' : Crawl)
    (h : CrawlInv env start c q) (hr : serial_loop env fuel c q = some c') :
    CrawlInv env start c' [] := by
  rw [serial_loop_eq_scrape_loop] at hr
  exact crawlInv_scrape_loop env start _ c q c' h hr

/-! ## Crawl engine: two finished crawls -/

theorem findFrom_ge (pat : CppString) (s : CppString) (i p : Nat)
    (h : findFrom pat s i = some p) : i ≤ p := by
  induction s generalizing i with
  | nil =>
    simp only [findFrom] at h
    split at h
    · simp only [Option.some.injEq] at h; omega
    · simp at h
  | cons c cs ih =>
    simp only [findFrom] at h
    split at h
    · simp only [Option.some.injEq] at h; omega
    · have := ih (i + 1) h; omega

/-- The test `s.find(pat) == 0` holds exactly when `s` begins with `pat`. -/
theorem find_zero_iff (s pat : CppString) : find s pat 0 = some 0 ↔ pat <+: s := by
  cases s with
  | nil =>
    simp only [find, Nat.zero_le, if_true, List.drop_zero, findFrom, List.prefix_nil]
    split <;> simp_all
  | cons c cs =>
    simp only [find, Nat.zero_le, if_true, List.drop_zero, findFrom]
    by_cases hp : pat.isPrefixOf (c :: cs) = true
    · simp only [hp, if_true, true_iff]
      exact List.isPrefixOf_iff_prefix.mp hp
    · simp only [hp, Bool.false_eq_true, if_false]
      constructor
      · intro h
        have := findFrom_ge pat cs 1 0 h
        omega
      · intro h
        exact absurd (List.isPrefixOf_iff_prefix.mpr h) hp

/-- Rule 1 as coded: a link that begins with `http` is returned unchanged. -/
theorem make_absolute_of_http (link origin : CppString) (h : "http".toList <+: link) :
    make_absolute link origin = link := by
  have hne : link.isEmpty = false := by
    obtain ⟨t, rfl⟩ := h
    rfl
  have hf : find link "http".toList 0 = some 0 := (find_zero_iff _ _).mpr h
  simp only [make_absolute, hne, hf, if_true, if_false, Bool.false_eq_true]

/-- Rule 2 as coded: a link that begins with `/`, and not with `http`. -/
theorem make_absolute_of_root (link origin : CppString) (h : ¬ "http".toList <+: link)
    (hr : link.head? = some '/') :
    make_absolute link origin
      = (match find origin "/".toList 8 with
          | some d => substr origin 0 d
          | none => origin) ++ link := by
  have hne : link.isEmpty = false := by
    cases link with
    | nil => simp at hr
    | cons c cs => rfl
  have hf : ¬ find link "http".toList 0 = some 0 := fun e => h ((find_zero_iff _ _).mp e)
  simp only [make_absolute, hne, hf, hr, if_true, if_false, Bool.false_eq_true]

/-- Rule 3 as coded: a non-empty link that begins neither with `http` nor with `/`. -/
theorem make_absolute_of_relative (link origin : CppString) (hne : link ≠ [])
    (h : ¬ "http".toList <+: link) (hr : link.head? ≠ some '/') :
    make_absolute link origin
      = (match rfind origin '/' with
          | some k => substr origin 0 (k + 1)
          | none => origin) ++ link := by
  have hne' : link.isEmpty = false := by
    cases link with
    | nil => exact absurd rfl hne
    | cons c cs => rfl
  have hf : ¬ find link "http".toList 0 = some 0 := fun e => h ((find_zero_iff _ _).mp e)
  simp only [make_absolute, hne', hf, hr, if_false, Bool.false_eq_true]

theorem rfind_eq_none (s : CppString) (c : Char) (h : c ∉ s) : rfind s c = none := by
  induction s with
  | nil => rfl
  | cons x xs ih =>
    have hx : ¬ x = c := fun e => h (e ▸ List.mem_cons_self _ _)
    have hxs : c ∉ xs := fun m => h (List.mem_cons_of_mem _ m)
    simp [rfind, ih hxs, hx]

/-- The call `s.rfind(c)` returns the position of the last `c`. -/
theorem rfind_append (pre post : CppString) (c : Char) (h : c ∉ post) :
    rfind (pre ++ c :: post) c = some pre.length := by
  induction pre with
  | nil => simp [rfind, rfind_eq_none post c h]
  | cons x xs ih => simp [rfind, ih]

theorem exists_last_split (s : CppString) (c : Char) (h : c ∈ s) :
    ∃ pre post, s = pre ++ c :: post ∧ c ∉ post := by
  induction s with
  | nil => simp at h
  | cons x xs ih =>
    by_cases hxs : c ∈ xs
    · obtain ⟨pre, post, e, hp⟩ := ih hxs
      exact ⟨x :: pre, post, by rw [e]; rfl, hp⟩
    · rcases List.mem_cons.mp h with e | e
      · exact ⟨[], xs, by rw [e]; rfl, hxs⟩
      · exact absurd e hxs

theorem rfind_cons_of_ne (x : Char) (xs : CppString) (c : Char) (h : x ≠ c) :
    rfind (x :: xs) c = (rfind xs c).map (· + 1) := by
  cases hr : rfind xs c <;> simp [rfind, hr, h]

/-- The result of the resolver begins with `http` when the origin does and the
link is not empty. -/
theorem make_absolute_begins_http (link origin : CppString) (hne : link ≠ [])
    (ho : "http".toList <+: origin) : "http".toList <+: make_absolute link origin := by
  by_cases h : "http".toList <+: link
  · rw [make_absolute_of_http link origin h]; exact h
  · obtain ⟨t, rfl⟩ := ho
    by_cases hr : link.head? = some '/'
    · rw [make_absolute_of_root _ _ h hr]
      cases hf : find ("http".toList ++ t) "/".toList 8 with
      | none => exact ⟨t ++ link, by simp⟩
      | some d =>
        have hd : 8 ≤ d := by
          unfold find at hf
          split at hf
          · exact findFrom_ge _ _ _ _ hf
          · simp at hf
        obtain ⟨e, rfl⟩ : ∃ e, d = e + 4 := ⟨d - 4, by omega⟩
        exact ⟨t.take e ++ link, by simp [substr, List.take_succ_cons]⟩
    · rw [make_absolute_of_relative _ _ hne h hr]
      have e4 : rfind ("http".toList ++ t) '/'
          = (rfind t '/').map (fun k => k + 4) := by
        show rfind ('h' :: 't' :: 't' :: 'p' :: t) '/' = _
        rw [rfind_cons_of_ne _ _ _ (by decide), rfind_cons_of_ne _ _ _ (by decide),
          rfind_cons_of_ne _ _ _ (by decide), rfind_cons_of_ne _ _ _ (by decide)]
        cases rfind t '/' <;> simp
      rw [e4]
      cases rfind t '/' with
      | none => exact ⟨t ++ link, by simp⟩
      | some k => exact ⟨t.take (k + 1) ++ link, by simp [substr, List.take_succ_cons]⟩

/-! ## Crawl engine: termination -/

theorem sum_sdiff_insert (R V : Finset CppString) (w : CppString → Nat) (url : CppString)
    (hR : url ∈ R) (hV : url ∉ V) :
    (R \ V).sum w = w url + (R \ insert url V).sum w := by
  rw [Finset.sdiff_insert]
  exact (Finset.add_sum_erase (R \ V) w (Finset.mem_sdiff.mpr ⟨hR, hV⟩)).symm

/-- With the pending URLs inside a finite link-closed set `R`, the parallel
crawl returns under every schedule that is at least as long as the number of
pending tasks plus, for each URL of `R` not yet visited, one plus the number of
its links. -/
theorem scrape_loop_returns (env : Env) (R : Finset CppString)
    (hc : LinkClosed env (↑R : Set CppString)) (sched : List Nat) (c : Crawl)
    (pool : List CppString) (hp : ∀ u ∈ pool, u ∈ R)
    (hb : pool.length + (R \ c.g.visited).sum (fun u => 1 + (linksOf env u).length)
      ≤ sched.length) :
    ∃ c', scrape_loop env sched c pool = some c' := by
  induction sched generalizing c pool with
  | nil =>
    cases pool with
    | nil => exact ⟨c, rfl⟩
    | cons t ts => simp at hb
  | cons i sched ih =>
    cases pool with
    | nil => exact ⟨c, rfl⟩
    | cons t ts =>
      rw [scrape_loop_cons]
      have hk : i % (t :: ts).length < (t :: ts).length := Nat.mod_lt _ (by simp)
      have hperm := perm_getD_cons_eraseIdx (t :: ts) _ t hk
      generalize (t :: ts).getD (i % (t :: ts).length) t = url at hperm ⊢
      generalize (t :: ts).eraseIdx (i % (t :: ts).length) = rest at hperm ⊢
      have hlen : (t :: ts).length = rest.length + 1 := by
        rw [hperm.length_eq, List.length_cons]
      have hurl : url ∈ R := hp url (hperm.mem_iff.mpr (List.mem_cons_self _ _))
      have hrest : ∀ u ∈ rest, u ∈ R :=
        fun u hu => hp u (hperm.mem_iff.mpr (List.mem_cons_of_mem _ hu))
      simp only [List.length_cons] at hb hlen
      by_cases hv : url ∈ c.g.visited
      · rw [visit_old env c url hv, List.append_nil]
        apply ih
        · exact hrest
        · dsimp only
          omega
      · obtain ⟨e2, _, ev, _⟩ := visit_new env c url hv
        apply ih
        · intro u hu
          rcases List.mem_append.mp hu with hu | hu
          · exact hrest u hu
          · rw [e2] at hu
            exact hc url (Finset.mem_coe.mpr hurl) u hu
        · rw [ev, e2, List.length_append]
          rw [sum_sdiff_insert R c.g.visited _ url hurl hv] at hb
          omega

/-- From the reset state and the start URL alone, `crawlBound` tasks suffice. -/
theorem scrape_returns (env : Env) (R : Finset CppString) (start : CppString)
    (hs : start ∈ R) (hc : LinkClosed env (↑R : Set CppString)) (g0 : Globals)
    (sched : List Nat) (hb : crawlBound env R ≤ sched.length) :
    ∃ c, scrape env sched start (reset_globals g0) = some c := by
  apply scrape_loop_returns env R hc
  · intro u hu
    rw [List.mem_singleton.mp hu]
    exact hs
  · have e : R \ (reset_globals g0).visited = R := Finset.sdiff_empty
    rw [e]
    simpa [crawlBound, Nat.add_comm] using hb

theorem serial_scrape_returns (env : Env) (R : Finset CppString) (start : CppString)
    (hs : start ∈ R) (hc : LinkClosed env (↑R : Set CppString)) (g0 : Globals)
    (fuel : Nat) (hb : crawlBound env R ≤ fuel) :
    ∃ c, serial_scrape env fuel start (reset_globals g0) = some c := by
  rw [serial_scrape, serial_loop_eq_scrape_loop]
  exact scrape_returns env R start hs hc g0 (List.replicate fuel 0) (by simpa using hb)

/-! ## Crawl engine: the reachable set -/

theorem reachable_linkClosed (env : Env) (start : CppString) :
    LinkClosed env {u | Reachable env start u} :=
  fun u hu v hv => Reachable.link u v hu hv

theorem reachable_subset (env : Env) (start : CppString) (S : Set CppString)
    (hs : start ∈ S) (hc : LinkClosed env S) (u : CppString) (hu : Reachable env start u) :
    u ∈ S := by
  induction hu with
  | start => exact hs
  | link u v _ hv ih => exact hc u ih v hv

/-- The reachable set is finite exactly when some finite set contains the start
URL and every link found from its members. -/
theorem reachable_finite_iff (env : Env) (start : CppString) :
    Set.Finite {u | Reachable env start u}
      ↔ ∃ R : Finset CppString, start ∈ R ∧ LinkClosed env (↑R : Set CppString) := by
  constructor
  · intro hfin
    refine ⟨hfin.toFinset, ?_, ?_⟩
    · rw [Set.Finite.mem_toFinset]
      exact Reachable.start
    · rw [Set.Finite.coe_toFinset]
      exact reachable_linkClosed env start
  · rintro ⟨R, hs, hc⟩
    exact Set.Finite.subset R.finite_toSet
      (fun u hu => reachable_subset env start _ (Finset.mem_coe.mpr hs) hc u hu)

/-- When a crawl has returned, `visited` is the set of reachable URLs. -/
theorem crawlInv_visited_iff (env : Env) (start : CppString) (c : Crawl)
    (h : CrawlInv env start c []) (u : CppString) :
    u ∈ c.g.visited ↔ Reachable env start u := by
  have hstart : start ∈ c.g.visited := by
    rcases h.start_mem with hs | hs
    · exact hs
    · simp at hs
  have hclosed : LinkClosed env (↑c.g.visited : Set CppString) := by
    intro x hx v hv
    rcases h.closed x hx v hv with hs | hs
    · exact hs
    · simp at hs
  constructor
  · intro hu
    exact (h.least {u | Reachable env start u} Reachable.start
      (reachable_linkClosed env start)).1 u hu
  · intro hu
    exact reachable_subset env start _ (Finset.mem_coe.mpr hstart) hclosed u hu

/-! ## Extractor: the searches and the loop bounds -/

theorem find_ge (s pat : CppString) (pos p : Nat) (h : find s pat pos = some p) : pos ≤ p := by
  unfold find at h
  split at h
  · exact findFrom_ge _ _ _ _ h
  · simp at h

theorem find_eq_none_of_lt (s pat : CppString) (pos : Nat) (h : s.length < pos) :
    find s pat pos = none := by
  unfold find
  rw [if_neg (by omega)]

/-- A search from position 0 fails exactly when the pattern does not occur. -/
theorem findFrom_eq_none_iff (pat s : CppString) (i : Nat) :
    findFrom pat s i = none ↔ ¬ pat <:+: s := by
  induction s generalizing i with
  | nil =>
    simp only [findFrom, List.infix_nil]
    split <;> simp_all
  | cons c cs ih =>
    simp only [findFrom, List.infix_cons_iff, not_or]
    by_cases hp : pat.isPrefixOf (c :: cs) = true
    · have := List.isPrefixOf_iff_prefix.mp hp
      simp [hp, this]
    · have hn : ¬ pat <+: c :: cs := fun h => hp (List.isPrefixOf_iff_prefix.mpr h)
      simp only [hp, Bool.false_eq_true, if_false, ih, hn, not_false_eq_true, true_and]

theorem find_eq_none_iff (s pat : CppString) : find s pat 0 = none ↔ ¬ pat <:+: s := by
  simp only [find, Nat.zero_le, if_true, List.drop_zero]
  exact findFrom_eq_none_iff pat s 0

/-- One more iteration than the bound changes nothing in the article loop. -/
theorem article_loop_fuel (stod : CppString → ℚ) (html : CppString) (fuel pos : Nat)
    (books : List ParsedBook) (h : html.length < fuel + pos) :
    article_loop stod html (fuel + 1) pos books = article_loop stod html fuel pos books := by
  induction fuel generalizing pos books with
  | zero =>
    have hn : find html pat_article pos = none := find_eq_none_of_lt _ _ _ (by omega)
    simp [article_loop, hn]
  | succ n ih =>
    rw [article_loop, article_loop]
    cases hf : find html pat_article pos with
    | none => rfl
    | some p =>
      have hp := find_ge _ _ _ _ hf
      dsimp only
      cases ha : find html "</article>".toList p with
      | none => exact ih _ _ (by omega)
      | some a =>
        have := find_ge _ _ _ _ ha
        exact ih _ _ (by omega)

/-- One more iteration than the bound changes nothing in the links loop. -/
theorem category_links_loop_fuel (html : CppString) (fuel pos : Nat)
    (new_urls : List CppString) (h : html.length < fuel + pos) :
    category_links_loop html (fuel + 1) pos new_urls
      = category_links_loop html fuel pos new_urls := by
  induction fuel generalizing pos new_urls with
  | zero =>
    have hn : find html pat_category_href pos = none := find_eq_none_of_lt _ _ _ (by omega)
    simp [category_links_loop, hn]
  | succ n ih =>
    rw [category_links_loop, category_links_loop]
    cases hf : find html pat_category_href pos with
    | none => rfl
    | some p =>
      have hp := find_ge _ _ _ _ hf
      dsimp only
      cases he : find html [dquote] (p + 6) with
      | none => exact ih _ _ (by omega)
      | some e =>
        have := find_ge _ _ _ _ he
        exact ih _ _ (by omega)

/-- The loops of `parse` never exhaust their `html.size() + 1` iterations: any
larger bound gives the same records and the same links. -/
theorem parse_loops_bound (stod : CppString → ℚ) (html : CppString) (k : Nat)
    (new_urls : List CppString) :
    article_loop stod html (html.length + 1 + k) 0 []
        = article_loop stod html (html.length + 1) 0 []
    ∧ category_links_loop html (html.length + 1 + k) 0 new_urls
        = category_links_loop html (html.length + 1) 0 new_urls := by
  induction k with
  | zero => exact ⟨rfl, rfl⟩
  | succ k ih =>
    constructor
    · rw [← ih.1]
      exact article_loop_fuel stod html (html.length + 1 + k) 0 [] (by omega)
    · rw [← ih.2]
      exact category_links_loop_fuel html (html.length + 1 + k) 0 new_urls (by omega)

/-! ## Aggregator under concurrency: the invariant -/

theorem workerOk_mono (g g' : Globals) (u : Worker) (h : WorkerOk g u)
    (hmin : g'.min_price ≤ g.min_price) (hmax : g.max_price ≤ g'.max_price) :
    WorkerOk g' u := by
  intro b rest e
  obtain ⟨h1, h2, h3, h4⟩ := h b rest e
  exact ⟨fun hp => le_trans hmin (h1 hp), fun hp => le_trans hmin (h2 hp),
    fun hp => le_trans (h3 hp) hmax, fun hp => le_trans (h4 hp) hmax⟩

/-- The thread at position `i` splits the list of threads. -/
theorem split_at_getElem (ws : List Worker) (i : Nat) (w : Worker) (h : ws[i]? = some w) :
    ∃ pre post, ws = pre ++ w :: post ∧ ∀ w', ws.set i w' = pre ++ w' :: post := by
  induction ws generalizing i with
  | nil => simp at h
  | cons a ws ih =>
    cases i with
    | zero =>
      simp only [List.getElem?_cons_zero, Option.some.injEq] at h
      exact ⟨[], ws, by rw [h]; rfl, fun w' => rfl⟩
    | succ i =>
      simp only [List.getElem?_cons_succ] at h
      obtain ⟨pre, post, e, hs⟩ := ih i h
      exact ⟨a :: pre, post, by rw [e]; rfl, fun w' => by rw [List.set_cons_succ, hs w']; rfl⟩

/-- A step of one thread keeps the invariant when it moves `min_price` down and
`max_price` up only, keeps the scalars beyond the records, leaves the thread in
order, and accounts for a scalar that is ahead of its record. -/
theorem step_frame (g g' : Globals) (w w' : Worker) (pre post : List Worker)
    (h : ConcInv g (pre ++ w :: post))
    (hmin : g'.min_price ≤ g.min_price) (hmax : g.max_price ≤ g'.max_price)
    (hmb : g'.min_price ≤ g'.min_book.price) (hxb : g'.max_book.price ≤ g'.max_price)
    (hw : WorkerOk g' w')
    (hjm : g'.min_book.price ≤ g'.min_price ∨ MinWit g' w'
      ∨ (g'.min_price = g.min_price ∧ g'.min_book.price ≤ g.min_book.price
          ∧ (MinWit g w → MinWit g' w')))
    (hjx : g'.max_price ≤ g'.max_book.price ∨ MaxWit g' w'
      ∨ (g'.max_price = g.max_price ∧ g.max_book.price ≤ g'.max_book.price
          ∧ (MaxWit g w → MaxWit g' w'))) :
    ConcInv g' (pre ++ w' :: post) := by
  have hmem' : w' ∈ pre ++ w' :: post := by simp
  refine ⟨hmb, hxb, ?_, ?_, ?_⟩
  · intro u hu
    rcases List.mem_append.mp hu with hu | hu
    · exact workerOk_mono g g' u (h.ok u (by simp [hu])) hmin hmax
    · rcases List.mem_cons.mp hu with rfl | hu
      · exact hw
      · exact workerOk_mono g g' u (h.ok u (by simp [hu])) hmin hmax
  · rcases hjm with hl | hl | ⟨e, hle, hpres⟩
    · exact Or.inl hl
    · exact Or.inr ⟨w', hmem', hl⟩
    · rcases h.min_just with hold | ⟨u, hu, hwit⟩
      · exact Or.inl (le_trans hle (by rw [e]; exact hold))
      · right
        rcases List.mem_append.mp hu with hu | hu
        · obtain ⟨b, rest, eb, ha, hp⟩ := hwit
          exact ⟨u, by simp [hu], b, rest, eb, ha, by rw [e]; exact hp⟩
        · rcases List.mem_cons.mp hu with rfl | hu
          · exact ⟨w', hmem', hpres hwit⟩
          · obtain ⟨b, rest, eb, ha, hp⟩ := hwit
            exact ⟨u, by simp [hu], b, rest, eb, ha, by rw [e]; exact hp⟩
  · rcases hjx with hl | hl | ⟨e, hle, hpres⟩
    · exact Or.inl hl
    · exact Or.inr ⟨w', hmem', hl⟩
    · rcases h.max_just with hold | ⟨u, hu, hwit⟩
      · exact Or.inl (le_trans (by rw [e]; exact hold) hle)
      · right
        rcases List.mem_append.mp hu with hu | hu
        · obtain ⟨b, rest, eb, ha, hp⟩ := hwit
          exact ⟨u, by simp [hu], b, rest, eb, ha, by rw [e]; exact hp⟩
        · rcases List.mem_cons.mp hu with rfl | hu
          · exact ⟨w', hmem', hpres hwit⟩
          · obtain ⟨b, rest, eb, ha, hp⟩ := hwit
            exact ⟨u, by simp [hu], b, rest, eb, ha, by rw [e]; exact hp⟩

/-- A step that changes neither scalar extremum nor extremum record. -/
theorem step_neutral (g g' : Globals) (w w' : Worker) (pre post : List Worker)
    (h : ConcInv g (pre ++ w :: post))
    (e1 : g'.min_price = g.min_price) (e2 : g'.max_price = g.max_price)
    (e3 : g'.min_book = g.min_book) (e4 : g'.max_book = g.max_book)
    (hw : WorkerOk g' w')
    (hm : MinWit g w → MinWit g' w') (hx : MaxWit g w → MaxWit g' w') :
    ConcInv g' (pre ++ w' :: post) :=
  step_frame g g' w w' pre post h (le_of_eq e1) (le_of_eq e2.symm)
    (by rw [e1, e3]; exact h.min_le) (by rw [e2, e4]; exact h.max_le) hw
    (Or.inr (Or.inr ⟨e1, by rw [e3], hm⟩)) (Or.inr (Or.inr ⟨e2, by rw [e4], hx⟩))

theorem bucket_fields (g : Globals) (r : Int) :
    (if r = 1 then { g with one_star := wrap32 (g.one_star + 1) }
      else if r = 2 then { g with two_stars := wrap32 (g.two_stars + 1) }
      else if r = 3 then { g with three_stars := wrap32 (g.three_stars + 1) }
      else if r = 4 then { g with four_stars := wrap32 (g.four_stars + 1) }
      else if r = 5 then { g with five_stars := wrap32 (g.five_stars + 1) }
      else g).min_price = g.min_price
    ∧ (if r = 1 then { g with one_star := wrap32 (g.one_star + 1) }
      else if r = 2 then { g with two_stars := wrap32 (g.two_stars + 1) }
      else if r = 3 then { g with three_stars := wrap32 (g.three_stars + 1) }
      else if r = 4 then { g with four_stars := wrap32 (g.four_stars + 1) }
      else if r = 5 then { g with five_stars := wrap32 (g.five_stars + 1) }
      else g).max_price = g.max_price
    ∧ (if r = 1 then { g with one_star := wrap32 (g.one_star + 1) }
      else if r = 2 then { g with two_stars := wrap32 (g.two_stars + 1) }
      else if r = 3 then { g with three_stars := wrap32 (g.three_stars + 1) }
      else if r = 4 then { g with four_stars := wrap32 (g.four_stars + 1) }
      else if r = 5 then { g with five_stars := wrap32 (g.five_stars + 1) }
      else g).min_book = g.min_book
    ∧ (if r = 1 then { g with one_star := wrap32 (g.one_star + 1) }
      else if r = 2 then { g with two_stars := wrap32 (g.two_stars + 1) }
      else if r = 3 then { g with three_stars := wrap32 (g.three_stars + 1) }
      else if r = 4 then { g with four_stars := wrap32 (g.four_stars + 1) }
      else if r = 5 then { g with five_stars := wrap32 (g.five_stars + 1) }
      else g).max_book = g.max_book := by
  split_ifs <;> exact ⟨rfl, rfl, rfl, rfl⟩

/-- The critical section, field by field. -/
theorem locked_fields (g : Globals) (b : Book) :
    (if b.price > (if b.price < g.min_book.price then
            { g with min_book := { title := b.title, rating := b.rating, price := b.price } }
          else g).max_book.price then
        { (if b.price < g.min_book.price then
            { g with min_book := { title := b.title, rating := b.rating, price := b.price } }
          else g) with max_book := { title := b.title, rating := b.rating, price := b.price } }
      else (if b.price < g.min_book.price then
            { g with min_book := { title := b.title, rating := b.rating, price := b.price } }
          else g))
      = { g with
          min_book := if b.price < g.min_book.price then b.info else g.min_book
          max_book := if b.price > g.max_book.price then b.info else g.max_book } := by
  by_cases h1 : b.price < g.min_book.price <;> by_cases h2 : b.price > g.max_book.price <;>
    simp [h1, h2, Book.info]

/-- Every step of every thread keeps the invariant. -/
theorem worker_step_inv (cas_ok : Bool) (g : Globals) (w : Worker) (pre post : List Worker)
    (h : ConcInv g (pre ++ w :: post)) :
    ConcInv (worker_step cas_ok g w).1 (pre ++ (worker_step cas_ok g w).2 :: post) := by
  have hw0 := h.ok w (by simp)
  rcases w with ⟨books, pc, cm, cx⟩
  cases books with
  | nil => exact h
  | cons b rest =>
    obtain ⟨k1, k2, k3, k4⟩ := hw0 b rest rfl
    cases pc with
    | add_total =>
      refine step_neutral g _ _ _ pre post h rfl rfl rfl rfl ?_ ?_ ?_
      · intro b' r' _; simp [worker_step, Pc.afterMin]
      · rintro ⟨_, _, _, ha, _⟩; simp [Pc.afterMin] at ha
      · rintro ⟨_, _, _, ha, _⟩; simp at ha
    | add_ratings =>
      refine step_neutral g _ _ _ pre post h rfl rfl rfl rfl ?_ ?_ ?_
      · intro b' r' _; simp [worker_step, Pc.afterMin]
      · rintro ⟨_, _, _, ha, _⟩; simp [Pc.afterMin] at ha
      · rintro ⟨_, _, _, ha, _⟩; simp at ha
    | add_price =>
      refine step_neutral g _ _ _ pre post h rfl rfl rfl rfl ?_ ?_ ?_
      · intro b' r' _; simp [worker_step, Pc.afterMin]
      · rintro ⟨_, _, _, ha, _⟩; simp [Pc.afterMin] at ha
      · rintro ⟨_, _, _, ha, _⟩; simp at ha
    | add_bucket =>
      obtain ⟨e1, e2, e3, e4⟩ := bucket_fields g b.rating
      refine step_neutral g _ _ _ pre post h e1 e2 e3 e4 ?_ ?_ ?_
      · intro b' r' _; simp [worker_step, Pc.afterMin]
      · rintro ⟨_, _, _, ha, _⟩; simp [Pc.afterMin] at ha
      · rintro ⟨_, _, _, ha, _⟩; simp at ha
    | load_min =>
      refine step_neutral g _ _ _ pre post h rfl rfl rfl rfl ?_ ?_ ?_
      · intro b' r' _; simp [worker_step, Pc.afterMin]
      · rintro ⟨_, _, _, ha, _⟩; simp [Pc.afterMin] at ha
      · rintro ⟨_, _, _, ha, _⟩; simp at ha
    | cas_min =>
      by_cases hlt : b.price < cm
      · by_cases hcas : g.min_price = cm ∧ cas_ok = true
        · have e : worker_step cas_ok g ⟨b :: rest, Pc.cas_min, cm, cx⟩
              = ({ g with min_price := b.price }, ⟨b :: rest, Pc.load_max, cm, cx⟩) := by
            simp only [worker_step, hlt, hcas, and_self, if_true]
          rw [e]
          have hle : b.price ≤ g.min_price := by rw [hcas.1]; exact hlt.le
          refine step_frame g _ _ _ pre post h hle (le_refl _) (le_trans hle h.min_le)
            h.max_le ?_ ?_ ?_
          · intro b' r' e'
            simp only [List.cons.injEq] at e'
            obtain ⟨rfl, rfl⟩ := e'
            exact ⟨by simp, fun _ => le_refl _, by simp, by simp⟩
          · exact Or.inr (Or.inl ⟨b, rest, rfl, rfl, le_refl _⟩)
          · exact Or.inr (Or.inr ⟨rfl, le_refl _, by rintro ⟨_, _, _, ha, _⟩; simp at ha⟩)
        · have e : worker_step cas_ok g ⟨b :: rest, Pc.cas_min, cm, cx⟩
              = (g, ⟨b :: rest, Pc.cas_min, g.min_price, cx⟩) := by
            simp only [worker_step, hlt, hcas, if_true, if_false]
          rw [e]
          refine step_neutral g _ _ _ pre post h rfl rfl rfl rfl ?_ ?_ ?_
          · intro b' r' e'
            exact ⟨fun _ => le_refl _, by simp [Pc.afterMin], by simp, by simp⟩
          · rintro ⟨_, _, _, ha, _⟩; simp [Pc.afterMin] at ha
          · rintro ⟨_, _, _, ha, _⟩; simp at ha
      · have e : worker_step cas_ok g ⟨b :: rest, Pc.cas_min, cm, cx⟩
            = (g, ⟨b :: rest, Pc.load_max, cm, cx⟩) := by
          simp only [worker_step, hlt, if_false]
        rw [e]
        refine step_neutral g _ _ _ pre post h rfl rfl rfl rfl ?_ ?_ ?_
        · intro b' r' e'
          simp only [List.cons.injEq] at e'
          obtain ⟨rfl, rfl⟩ := e'
          exact ⟨by simp, fun _ => le_trans (k1 rfl) (not_lt.mp hlt), by simp, by simp⟩
        · rintro ⟨_, _, _, ha, _⟩; simp [Pc.afterMin] at ha
        · rintro ⟨_, _, _, ha, _⟩; simp at ha
    | load_max =>
      have e : worker_step cas_ok g ⟨b :: rest, Pc.load_max, cm, cx⟩
          = (g, ⟨b :: rest, Pc.cas_max, cm, g.max_price⟩) := rfl
      rw [e]
      refine step_neutral g _ _ _ pre post h rfl rfl rfl rfl ?_ ?_ ?_
      · intro b' r' e'
        simp only [List.cons.injEq] at e'
        obtain ⟨rfl, rfl⟩ := e'
        exact ⟨by simp, fun _ => k2 rfl, fun _ => le_refl _, by simp⟩
      · rintro ⟨b', r', e', _, hp⟩
        exact ⟨b', r', e', rfl, hp⟩
      · rintro ⟨_, _, _, ha, _⟩; simp at ha
    | cas_max =>
      by_cases hlt : b.price > cx
      · by_cases hcas : g.max_price = cx ∧ cas_ok = true
        · have e : worker_step cas_ok g ⟨b :: rest, Pc.cas_max, cm, cx⟩
              = ({ g with max_price := b.price }, ⟨b :: rest, Pc.locked, cm, cx⟩) := by
            simp only [worker_step, hlt, hcas, and_self, if_true]
          rw [e]
          have hle : g.max_price ≤ b.price := by rw [hcas.1]; exact le_of_lt hlt
          refine step_frame g _ _ _ pre post h (le_refl _) hle h.min_le
            (le_trans h.max_le hle) ?_ ?_ ?_
          · intro b' r' e'
            simp only [List.cons.injEq] at e'
            obtain ⟨rfl, rfl⟩ := e'
            exact ⟨by simp, fun _ => k2 rfl, by simp, fun _ => le_refl _⟩
          · refine Or.inr (Or.inr ⟨rfl, le_refl _, ?_⟩)
            rintro ⟨b', r', e', _, hp⟩
            exact ⟨b', r', e', rfl, hp⟩
          · exact Or.inr (Or.inl ⟨b, rest, rfl, rfl, le_refl _⟩)
        · have e : worker_step cas_ok g ⟨b :: rest, Pc.cas_max, cm, cx⟩
              = (g, ⟨b :: rest, Pc.cas_max, cm, g.max_price⟩) := by
            simp only [worker_step, hlt, hcas, if_true, if_false]
          rw [e]
          refine step_neutral g _ _ _ pre post h rfl rfl rfl rfl ?_ ?_ ?_
          · intro b' r' e'
            simp only [List.cons.injEq] at e'
            obtain ⟨rfl, rfl⟩ := e'
            exact ⟨by simp, fun _ => k2 rfl, fun _ => le_refl _, by simp⟩
          · rintro ⟨b', r', e', _, hp⟩
            exact ⟨b', r', e', rfl, hp⟩
          · rintro ⟨_, _, _, ha, _⟩; simp at ha
      · have e : worker_step cas_ok g ⟨b :: rest, Pc.cas_max, cm, cx⟩
            = (g, ⟨b :: rest, Pc.locked, cm, cx⟩) := by
          simp only [worker_step, hlt, if_false]
        rw [e]
        refine step_neutral g _ _ _ pre post h rfl rfl rfl rfl ?_ ?_ ?_
        · intro b' r' e'
          simp only [List.cons.injEq] at e'
          obtain ⟨rfl, rfl⟩ := e'
          exact ⟨by simp, fun _ => k2 rfl, by simp,
            fun _ => le_trans (not_lt.mp hlt) (k3 rfl)⟩
        · rintro ⟨b', r', e', _, hp⟩
          exact ⟨b', r', e', rfl, hp⟩
        · rintro ⟨_, _, _, ha, _⟩; simp at ha
    | locked =>
      have e : worker_step cas_ok g ⟨b :: rest, Pc.locked, cm, cx⟩
          = ({ g with
                min_book := if b.price < g.min_book.price then b.info else g.min_book
                max_book := if b.price > g.max_book.price then b.info else g.max_book },
              ⟨rest, Pc.add_total, cm, cx⟩) := by
        simp only [worker_step]
        rw [locked_fields]
      rw [e]
      have hmp : g.min_price ≤ b.price := k2 rfl
      have hxp : b.price ≤ g.max_price := k4 rfl
      have hmb : (if b.price < g.min_book.price then b.info else g.min_book).price
          ≤ g.min_book.price := by
        split_ifs with hc
        · exact le_of_lt hc
        · exact le_refl _
      have hmb' : (if b.price < g.min_book.price then b.info else g.min_book).price
          ≤ b.price := by
        split_ifs with hc
        · exact le_refl _
        · exact not_lt.mp hc
      have hxb : g.max_book.price
          ≤ (if b.price > g.max_book.price then b.info else g.max_book).price := by
        split_ifs with hc
        · exact le_of_lt hc
        · exact le_refl _
      have hxb' : b.price
          ≤ (if b.price > g.max_book.price then b.info else g.max_book).price := by
        split_ifs with hc
        · exact le_refl _
        · exact not_lt.mp hc
      refine step_frame g _ _ _ pre post h (le_refl _) (le_refl _) ?_ ?_ ?_ ?_ ?_
      · show g.min_price ≤ (if b.price < g.min_book.price then b.info else g.min_book).price
        split_ifs
        · exact hmp
        · exact h.min_le
      · show (if b.price > g.max_book.price then b.info else g.max_book).price ≤ g.max_price
        split_ifs
        · exact hxp
        · exact h.max_le
      · intro b' r' _
        exact ⟨by simp, by simp [Pc.afterMin], by simp, by simp⟩
      · by_cases hW : MinWit g ⟨b :: rest, Pc.locked, cm, cx⟩
        · obtain ⟨b', r', e', _, hp⟩ := hW
          simp only [List.cons.injEq] at e'
          obtain ⟨rfl, rfl⟩ := e'
          exact Or.inl (le_trans hmb' hp)
        · exact Or.inr (Or.inr ⟨rfl, hmb, fun hw => absurd hw hW⟩)
      · by_cases hW : MaxWit g ⟨b :: rest, Pc.locked, cm, cx⟩
        · obtain ⟨b', r', e', _, hp⟩ := hW
          simp only [List.cons.injEq] at e'
          obtain ⟨rfl, rfl⟩ := e'
          exact Or.inl (le_trans hp hxb')
        · exact Or.inr (Or.inr ⟨rfl, hxb, fun hw => absurd hw hW⟩)

/-- The invariant holds in every state of a concurrent execution. -/
theorem conc_run_inv (sched : List (Nat × Bool)) (g : Globals) (ws : List Worker)
    (h : ConcInv g ws) : ConcInv (conc_run sched g ws).1 (conc_run sched g ws).2 := by
  induction sched generalizing g ws with
  | nil => exact h
  | cons s sched ih =>
    obtain ⟨i, cas_ok⟩ := s
    rw [conc_run]
    cases hget : ws[i]? with
    | none => exact ih g ws h
    | some w =>
      obtain ⟨pre, post, e, hs⟩ := split_at_getElem ws i w hget
      dsimp only
      rw [hs]
      apply ih
      apply worker_step_inv
      rw [← e]
      exact h

/-- The invariant holds when the calls start, in a state whose extremum
records carry the scalar extrema. -/
theorem concInv_start (g : Globals) (batches : List (List Book))
    (hmin : g.min_book.price = g.min_price) (hmax : g.max_book.price = g.max_price) :
    ConcInv g (batches.map Worker.start) := by
  refine ⟨le_of_eq hmin.symm, le_of_eq hmax, ?_, Or.inl (le_of_eq hmin),
    Or.inl (le_of_eq hmax.symm)⟩
  intro w hw
  obtain ⟨l, _, rfl⟩ := List.mem_map.mp hw
  intro b rest _
  simp [Worker.start, Pc.afterMin]

/-- When every call has finished, the extremum records carry the scalar
extrema. -/
theorem concInv_finished (g : Globals) (ws : List Worker) (h : ConcInv g ws)
    (hfin : ∀ w ∈ ws, w.books = []) :
    g.min_book.price = g.min_price ∧ g.max_book.price = g.max_price := by
  constructor
  · rcases h.min_just with hl | ⟨w, hw, b, rest, e, _⟩
    · exact le_antisymm hl h.min_le
    · rw [hfin w hw] at e
      cases e
  · rcases h.max_just with hl | ⟨w, hw, b, rest, e, _⟩
    · exact le_antisymm h.max_le hl
    · rw [hfin w hw] at e
      cases e

theorem conc_run_append (s₁ s₂ : List (Nat × Bool)) (g : Globals) (ws : List Worker) :
    conc_run (s₁ ++ s₂) g ws = conc_run s₂ (conc_run s₁ g ws).1 (conc_run s₁ g ws).2 := by
  induction s₁ generalizing g ws with
  | nil => rfl
  | cons s s₁ ih =>
    obtain ⟨i, cas_ok⟩ := s
    rw [List.cons_append, conc_run, conc_run]
    cases ws[i]? with
    | none => exact ih g ws
    | some w => exact ih _ _

/-- A thread that runs alone: the four atomic additions. -/
theorem conc_run_additions (g : Globals) (b : Book) (rest : List Book) (cm cx : ℚ) :
    conc_run (List.replicate 4 (0, true)) g [⟨b :: rest, Pc.add_total, cm, cx⟩]
      = ((let g := { g with total_books := wrap32 (g.total_books + 1) }
          let g := { g with sum_ratings := double_add g.sum_ratings (b.rating : ℚ) }
          let g := { g with total_price := double_add g.total_price b.price }
          if b.rating = 1 then { g with one_star := wrap32 (g.one_star + 1) }
          else if b.rating = 2 then { g with two_stars := wrap32 (g.two_stars + 1) }
          else if b.rating = 3 then { g with three_stars := wrap32 (g.three_stars + 1) }
          else if b.rating = 4 then { g with four_stars := wrap32 (g.four_stars + 1) }
          else if b.rating = 5 then { g with five_stars := wrap32 (g.five_stars + 1) }
          else g),
        [⟨b :: rest, Pc.load_min, cm, cx⟩]) := rfl

/-- A thread that runs alone: the two compare-and-swap loops and the critical
section. -/
theorem conc_run_extrema (G : Globals) (b : Book) (rest : List Book) (cm cx : ℚ) :
    conc_run (List.replicate 5 (0, true)) G [⟨b :: rest, Pc.load_min, cm, cx⟩]
      = ((let g := if b.price < G.min_price then { G with min_price := b.price } else G
          let g := if b.price > g.max_price then { g with max_price := b.price } else g
          let g :=
            if b.price < g.min_book.price then
              { g with min_book := { title := b.title, rating := b.rating, price := b.price } }
            else g
          let g :=
            if b.price > g.max_book.price then
              { g with max_book := { title := b.title, rating := b.rating, price := b.price } }
            else g
          g),
        [⟨rest, Pc.add_total, G.min_price, G.max_price⟩]) := by
  by_cases hm : b.price < G.min_price <;> by_cases hx : b.price > G.max_price <;>
  by_cases hmb : b.price < G.min_book.price <;> by_cases hxb : b.price > G.max_book.price <;>
  simp [List.replicate, conc_run, worker_step, hm, hx, hmb, hxb]

/-- A thread that runs alone takes nine steps for a record and leaves the state
that `update_one` computes. -/
theorem conc_run_one_record (g : Globals) (b : Book) (rest : List Book) (cm cx : ℚ) :
    conc_run (List.replicate 9 (0, true)) g [⟨b :: rest, Pc.add_total, cm, cx⟩]
      = (update_one g b, [⟨rest, Pc.add_total, g.min_price, g.max_price⟩]) := by
  have e9 : List.replicate 9 ((0 : Nat), true)
      = List.replicate 4 (0, true) ++ List.replicate 5 (0, true) := rfl
  rw [e9, conc_run_append, conc_run_additions, conc_run_extrema]
  obtain ⟨e1, e2, _, _⟩ := bucket_fields
    { g with total_books := wrap32 (g.total_books + 1)
             sum_ratings := double_add g.sum_ratings (b.rating : ℚ)
             total_price := double_add g.total_price b.price } b.rating
  refine Prod.ext rfl ?_
  dsimp only at e1 e2 ⊢
  rw [e1, e2]

/-- A thread that runs alone through a whole batch leaves the state that
`update_stats` computes. -/
theorem conc_run_alone (batch : List Book) (cat : CppString) (g : Globals) (cm cx : ℚ) :
    ∃ cm' cx', conc_run (List.replicate (9 * batch.length) (0, true)) g
        [⟨batch, Pc.add_total, cm, cx⟩]
      = (update_stats batch cat g, [⟨[], Pc.add_total, cm', cx'⟩]) := by
  induction batch generalizing g cm cx with
  | nil => exact ⟨cm, cx, rfl⟩
  | cons b rest ih =>
    have e : List.replicate (9 * (b :: rest).length) ((0 : Nat), true)
        = List.replicate 9 (0, true) ++ List.replicate (9 * rest.length) (0, true) := by
      rw [List.length_cons, Nat.mul_succ, Nat.add_comm, List.replicate_add]
    rw [e, conc_run_append, conc_run_one_record, update_stats_cons]
    exact ih (update_one g b) _ _

/-! ## URL resolver: literal cases -/

/-- C3: the three literal resolver cases: a relative link is appended to the
directory of the origin, a rooted link is appended to the scheme and authority
of the origin, and a link that starts with `http` is returned unchanged. -/
theorem make_absolute_literal_cases :
    make_absolute "page2.html".toList "https://site.example/catalogue/index.html".toList
        = "https://site.example/catalogue/page2.html".toList
    ∧ make_absolute "/catalogue/page2.html".toList
        "https://site.example/catalogue/index.html".toList
        = "https://site.example/catalogue/page2.html".toList
    ∧ make_absolute "https://other.example/x".toList "https://site.example/y".toList
        = "https://other.example/x".toList := by
  refine ⟨?_, ?_, ?_⟩ <;> decide

/-! ## Aggregator: the claims -/

/-- C5: in every state reached from the reset state by a sequence of calls of
`update_stats` with arbitrary batches, the price held in `min_book` is
`min_price` and the price held in `max_book` is `max_price`. -/
theorem extremum_consistency_sequential (g0 : Globals)
    (calls : List (List Book × CppString)) :
    (calls.foldl (fun s c => update_stats c.1 c.2 s) (reset_globals g0)).min_book.price
      = (calls.foldl (fun s c => update_stats c.1 c.2 s) (reset_globals g0)).min_price
    ∧ (calls.foldl (fun s c => update_stats c.1 c.2 s) (reset_globals g0)).max_book.price
      = (calls.foldl (fun s c => update_stats c.1 c.2 s) (reset_globals g0)).max_price := by
  rw [update_stats_calls, update_stats_min_book_price, update_stats_min_price,
    update_stats_max_book_price, update_stats_max_price]
  exact ⟨rfl, rfl⟩

/-- C6, as stated, fails: two records of equal price and different title are
fed in the two possible orders from the reset state, and `min_book` and
`max_book` end up different. -/
theorem extremum_records_depend_on_order :
    List.Perm [bookA, bookA2] [bookA2, bookA]
    ∧ (update_stats [bookA, bookA2] [] (reset_globals initial_globals)).min_book
        ≠ (update_stats [bookA2, bookA] [] (reset_globals initial_globals)).min_book
    ∧ (update_stats [bookA, bookA2] [] (reset_globals initial_globals)).max_book
        ≠ (update_stats [bookA2, bookA] [] (reset_globals initial_globals)).max_book := by
  refine ⟨List.Perm.swap _ _ _, ?_, ?_⟩ <;> decide!

/-- C6, amended: for a list of records and a permutation of it, fed to
`update_stats` from the reset state, `min_book` and `max_book` hold the same
price; `min_book` is the same in all three fields when the records of least
price of the list have the same title and rating, and `max_book` when the
records of greatest price have. -/
theorem extremum_records_perm (g0 : Globals) (l₁ l₂ : List Book) (c₁ c₂ : CppString)
    (h : l₁.Perm l₂) :
    ((update_stats l₁ c₁ (reset_globals g0)).min_book.price
        = (update_stats l₂ c₂ (reset_globals g0)).min_book.price
      ∧ (update_stats l₁ c₁ (reset_globals g0)).max_book.price
        = (update_stats l₂ c₂ (reset_globals g0)).max_book.price)
    ∧ ((∀ a ∈ l₁, ∀ b ∈ l₁, (∀ c ∈ l₁, a.price ≤ c.price) → a.price = b.price →
          a.title = b.title ∧ a.rating = b.rating) →
      (update_stats l₁ c₁ (reset_globals g0)).min_book
        = (update_stats l₂ c₂ (reset_globals g0)).min_book)
    ∧ ((∀ a ∈ l₁, ∀ b ∈ l₁, (∀ c ∈ l₁, c.price ≤ a.price) → a.price = b.price →
          a.title = b.title ∧ a.rating = b.rating) →
      (update_stats l₁ c₁ (reset_globals g0)).max_book
        = (update_stats l₂ c₂ (reset_globals g0)).max_book) :=
  ⟨update_stats_perm_book_price h c₁ c₂ _,
    fun tie => update_stats_perm_min_book h
      (fun a ha b hb hleast hp => info_eq_of_title_rating hp (tie a ha b hb hleast hp)) c₁ c₂ _,
    fun tie => update_stats_perm_max_book h
      (fun a ha b hb hmost hp => info_eq_of_title_rating hp (tie a ha b hb hmost hp)) c₁ c₂ _⟩

/-- C6, amended, at a batch in which two records tie at a price that is neither
the least nor the greatest, and its reversal. -/
theorem extremum_records_perm_witness :
    List.Perm [bookC, bookA, bookA2, bookB] [bookB, bookA2, bookA, bookC]
    ∧ bookA.price = bookA2.price ∧ bookA.title ≠ bookA2.title
    ∧ (∀ a ∈ [bookC, bookA, bookA2, bookB], ∀ b ∈ [bookC, bookA, bookA2, bookB],
        (∀ c ∈ [bookC, bookA, bookA2, bookB], a.price ≤ c.price) → a.price = b.price →
        a.title = b.title ∧ a.rating = b.rating)
    ∧ (∀ a ∈ [bookC, bookA, bookA2, bookB], ∀ b ∈ [bookC, bookA, bookA2, bookB],
        (∀ c ∈ [bookC, bookA, bookA2, bookB], c.price ≤ a.price) → a.price = b.price →
        a.title = b.title ∧ a.rating = b.rating)
    ∧ (update_stats [bookC, bookA, bookA2, bookB] [] (reset_globals initial_globals)).min_book
        = (update_stats [bookB, bookA2, bookA, bookC] [] (reset_globals initial_globals)).min_book
    ∧ (update_stats [bookC, bookA, bookA2, bookB] [] (reset_globals initial_globals)).max_book
        = (update_stats [bookB, bookA2, bookA, bookC] [] (reset_globals initial_globals)).max_book :=
  have hp : List.Perm [bookC, bookA, bookA2, bookB] [bookB, bookA2, bookA, bookC] := by
    decide!
  have tmin : ∀ a ∈ [bookC, bookA, bookA2, bookB], ∀ b ∈ [bookC, bookA, bookA2, bookB],
      (∀ c ∈ [bookC, bookA, bookA2, bookB], a.price ≤ c.price) → a.price = b.price →
      a.title = b.title ∧ a.rating = b.rating := by decide!
  have tmax : ∀ a ∈ [bookC, bookA, bookA2, bookB], ∀ b ∈ [bookC, bookA, bookA2, bookB],
      (∀ c ∈ [bookC, bookA, bookA2, bookB], c.price ≤ a.price) → a.price = b.price →
      a.title = b.title ∧ a.rating = b.rating := by decide!
  ⟨hp, by decide!, by decide!, tmin, tmax,
    (extremum_records_perm initial_globals _ _ [] [] hp).2.1 tmin,
    (extremum_records_perm initial_globals _ _ [] [] hp).2.2 tmax⟩

/-- C7, as stated, fails: the three prices 51.77, 53.74 and 20.66, added from
the reset state in two orders, leave two different values of `total_price`
(126.17 and 126.17000000000002); and from a state whose `sum_ratings` is
`2^53`, the ratings 1 and 2 added in the two orders leave two different values
of `sum_ratings`. -/
theorem sums_depend_on_order :
    List.Perm [bookP1, bookP2, bookP3] [bookP3, bookP1, bookP2]
    ∧ (update_stats [bookP1, bookP2, bookP3] [] (reset_globals initial_globals)).total_price
        = 8878424452895867 / 70368744177664
    ∧ (update_stats [bookP3, bookP1, bookP2] [] (reset_globals initial_globals)).total_price
        = 2219606113223967 / 17592186044416
    ∧ (update_stats [bookP1, bookP2, bookP3] [] (reset_globals initial_globals)).total_price
        ≠ (update_stats [bookP3, bookP1, bookP2] [] (reset_globals initial_globals)).total_price
    ∧ List.Perm [bookC, bookFree] [bookFree, bookC]
    ∧ (update_stats [bookC, bookFree] []
          { initial_globals with sum_ratings := 9007199254740992 }).sum_ratings
        = 9007199254740994
    ∧ (update_stats [bookFree, bookC] []
          { initial_globals with sum_ratings := 9007199254740992 }).sum_ratings
        = 9007199254740996 := by
  refine ⟨?_, ?_, ?_, ?_, ?_, ?_, ?_⟩ <;> decide!

/-- C7, amended: for a list of records and a permutation of it, fed to
`update_stats` from the same starting state, the results agree on
`total_books`, the five star counters, `min_price` and `max_price`; they agree
on `total_price` when in neither order an addition of a price is rounded, and
on `sum_ratings` when in neither order an addition of a rating is rounded. -/
theorem totals_commute (g : Globals) (l₁ l₂ : List Book) (c₁ c₂ : CppString)
    (h : l₁.Perm l₂) :
    ((update_stats l₁ c₁ g).total_books = (update_stats l₂ c₂ g).total_books
      ∧ (update_stats l₁ c₁ g).one_star = (update_stats l₂ c₂ g).one_star
      ∧ (update_stats l₁ c₁ g).two_stars = (update_stats l₂ c₂ g).two_stars
      ∧ (update_stats l₁ c₁ g).three_stars = (update_stats l₂ c₂ g).three_stars
      ∧ (update_stats l₁ c₁ g).four_stars = (update_stats l₂ c₂ g).four_stars
      ∧ (update_stats l₁ c₁ g).five_stars = (update_stats l₂ c₂ g).five_stars
      ∧ (update_stats l₁ c₁ g).min_price = (update_stats l₂ c₂ g).min_price
      ∧ (update_stats l₁ c₁ g).max_price = (update_stats l₂ c₂ g).max_price)
    ∧ ((∀ p : List Book, p <+: l₁ →
          IsDouble (g.total_price + (p.map (fun b => b.price)).sum)) →
        (∀ p : List Book, p <+: l₂ →
          IsDouble (g.total_price + (p.map (fun b => b.price)).sum)) →
        (update_stats l₁ c₁ g).total_price = (update_stats l₂ c₂ g).total_price)
    ∧ ((∀ p : List Book, p <+: l₁ →
          IsDouble (g.sum_ratings + (p.map (fun b => (b.rating : ℚ))).sum)) →
        (∀ p : List Book, p <+: l₂ →
          IsDouble (g.sum_ratings + (p.map (fun b => (b.rating : ℚ))).sum)) →
        (update_stats l₁ c₁ g).sum_ratings = (update_stats l₂ c₂ g).sum_ratings) := by
  refine ⟨update_stats_perm_counts h c₁ c₂ g, ?_, ?_⟩
  · intro hx hy
    rw [update_stats_total_price_exact l₁ c₁ g hx, update_stats_total_price_exact l₂ c₂ g hy,
      (h.map _).sum_eq]
  · intro hx hy
    rw [update_stats_sum_ratings_exact l₁ c₁ g hx, update_stats_sum_ratings_exact l₂ c₂ g hy,
      (h.map _).sum_eq]

/-- C7, amended, at the batch of records A, B, C and a rotation of it. -/
theorem totals_commute_witness :
    List.Perm [bookA, bookB, bookC] [bookB, bookC, bookA]
    ∧ (∀ p ∈ [bookA, bookB, bookC].inits,
        IsDouble (initial_globals.total_price + (p.map (fun b => b.price)).sum))
    ∧ (∀ p ∈ [bookB, bookC, bookA].inits,
        IsDouble (initial_globals.total_price + (p.map (fun b => b.price)).sum))
    ∧ (∀ p ∈ [bookA, bookB, bookC].inits,
        IsDouble (initial_globals.sum_ratings + (p.map (fun b => (b.rating : ℚ))).sum))
    ∧ (∀ p ∈ [bookB, bookC, bookA].inits,
        IsDouble (initial_globals.sum_ratings + (p.map (fun b => (b.rating : ℚ))).sum))
    ∧ (update_stats [bookA, bookB, bookC] [] initial_globals).total_books
        = (update_stats [bookB, bookC, bookA] [] initial_globals).total_books
    ∧ (update_stats [bookA, bookB, bookC] [] initial_globals).total_price
        = (update_stats [bookB, bookC, bookA] [] initial_globals).total_price
    ∧ (update_stats [bookA, bookB, bookC] [] initial_globals).sum_ratings
        = (update_stats [bookB, bookC, bookA] [] initial_globals).sum_ratings :=
  have h : List.Perm [bookA, bookB, bookC] [bookB, bookC, bookA] := by decide!
  have hp₁ : ∀ p ∈ [bookA, bookB, bookC].inits,
      IsDouble (initial_globals.total_price + (p.map (fun b => b.price)).sum) := by decide!
  have hp₂ : ∀ p ∈ [bookB, bookC, bookA].inits,
      IsDouble (initial_globals.total_price + (p.map (fun b => b.price)).sum) := by decide!
  have hr₁ : ∀ p ∈ [bookA, bookB, bookC].inits,
      IsDouble (initial_globals.sum_ratings + (p.map (fun b => (b.rating : ℚ))).sum) := by
    decide!
  have hr₂ : ∀ p ∈ [bookB, bookC, bookA].inits,
      IsDouble (initial_globals.sum_ratings + (p.map (fun b => (b.rating : ℚ))).sum) := by
    decide!
  ⟨h, hp₁, hp₂, hr₁, hr₂, (totals_commute initial_globals _ _ [] [] h).1.1,
    (totals_commute initial_globals _ _ [] [] h).2.1
      (fun p hp => hp₁ p ((List.mem_inits p _).mpr hp))
      (fun p hp => hp₂ p ((List.mem_inits p _).mpr hp)),
    (totals_commute initial_globals _ _ [] [] h).2.2
      (fun p hp => hr₁ p ((List.mem_inits p _).mpr hp))
      (fun p hp => hr₂ p ((List.mem_inits p _).mpr hp))⟩

/-- C8, as stated, fails: from the reset state, after a batch of one record at
price 0 (a non-negative price), `max_book` is not a record of the batch. -/
theorem max_book_not_observed_at_price_zero :
    [bookFree] ≠ [] ∧ (∀ b ∈ [bookFree], 0 ≤ b.price)
    ∧ ¬ ∃ b ∈ [bookFree],
        (update_stats [bookFree] [] (reset_globals initial_globals)).max_book = b.info
        ∧ ∀ b' ∈ [bookFree], b'.price ≤ b.price := by
  decide!

/-- C8, amended: from the reset state, after a batch that holds a record priced
above 0 and a record priced below `DBL_MAX`, `min_book` is a record of the
batch of least price and `max_book` is a record of the batch of greatest
price. -/
theorem extremum_record_observed (g0 : Globals) (batch : List Book) (cat : CppString)
    (hpos : ∃ b ∈ batch, 0 < b.price) (hfin : ∃ b ∈ batch, b.price < DBL_MAX) :
    (∃ b ∈ batch, (update_stats batch cat (reset_globals g0)).min_book = b.info
        ∧ ∀ b' ∈ batch, b.price ≤ b'.price)
    ∧ (∃ b ∈ batch, (update_stats batch cat (reset_globals g0)).max_book = b.info
        ∧ ∀ b' ∈ batch, b'.price ≤ b.price) := by
  constructor
  · rcases update_stats_min_book_cases batch cat (reset_globals g0) with
      ⟨_, hall⟩ | ⟨b, hb, e, _, hall⟩
    · obtain ⟨b, hb, hlt⟩ := hfin
      exact absurd hlt (not_lt.mpr (hall b hb))
    · exact ⟨b, hb, e, hall⟩
  · rcases update_stats_max_book_cases batch cat (reset_globals g0) with
      ⟨_, hall⟩ | ⟨b, hb, e, _, hall⟩
    · obtain ⟨b, hb, hlt⟩ := hpos
      exact absurd hlt (not_lt.mpr (hall b hb))
    · exact ⟨b, hb, e, hall⟩

/-- C8, amended, at the batch of records A, B, C. -/
theorem extremum_record_observed_witness :
    (∃ b ∈ [bookA, bookB, bookC], 0 < b.price)
    ∧ (∃ b ∈ [bookA, bookB, bookC], b.price < DBL_MAX)
    ∧ (∃ b ∈ [bookA, bookB, bookC],
        (update_stats [bookA, bookB, bookC] [] (reset_globals initial_globals)).min_book
          = b.info ∧ ∀ b' ∈ [bookA, bookB, bookC], b.price ≤ b'.price)
    ∧ (∃ b ∈ [bookA, bookB, bookC],
        (update_stats [bookA, bookB, bookC] [] (reset_globals initial_globals)).max_book
          = b.info ∧ ∀ b' ∈ [bookA, bookB, bookC], b'.price ≤ b.price) :=
  have hpos : ∃ b ∈ [bookA, bookB, bookC], 0 < b.price := by decide!
  have hfin : ∃ b ∈ [bookA, bookB, bookC], b.price < DBL_MAX := by decide!
  ⟨hpos, hfin, extremum_record_observed initial_globals [bookA, bookB, bookC] [] hpos hfin⟩

/-- C9, as stated, fails: from a state whose `total_books` is `INT_MAX`, one
record leaves `total_books` at `INT_MIN`; and from the reset state, after the
three records at 51.77, 53.74 and 20.66, `total_price` is the rounded sum
126.17, which is not the sum of the three prices. -/
theorem sums_postcondition_fails :
    (update_stats [bookA] [] { initial_globals with total_books := 2147483647 }).total_books
        = -2147483648
    ∧ (update_stats [bookA] [] { initial_globals with total_books := 2147483647 }).total_books
        ≠ 2147483647 + (([bookA].length : Nat) : Int)
    ∧ (update_stats [bookP1, bookP2, bookP3] [] (reset_globals initial_globals)).total_price
        = 8878424452895867 / 70368744177664
    ∧ (reset_globals initial_globals).total_price
          + ([bookP1, bookP2, bookP3].map (fun b => b.price)).sum
        = 35513697811583469 / 281474976710656
    ∧ (update_stats [bookP1, bookP2, bookP3] [] (reset_globals initial_globals)).total_price
        ≠ (reset_globals initial_globals).total_price
          + ([bookP1, bookP2, bookP3].map (fun b => b.price)).sum
    ∧ (update_stats [bookC] []
          { initial_globals with sum_ratings := 9007199254740992 }).sum_ratings
        ≠ 9007199254740992 + (([bookC].map (fun b => (b.rating : ℚ))).sum) := by
  refine ⟨?_, ?_, ?_, ?_, ?_, ?_⟩ <;> decide!

/-- C9, amended: after `update_stats(batch)`, from any state, `total_books` is
its starting value plus the length of the batch, wrapped into the range of
`int`; it has grown by the length of the batch when the starting value and the
sum are in the range of `int`. `total_price` has grown by the sum of the prices
of the batch when no addition of a price along the batch is rounded, and
`sum_ratings` by the sum of the ratings when no addition of a rating along the
batch is rounded. -/
theorem sums_postcondition (g : Globals) (batch : List Book) (cat : CppString) :
    (update_stats batch cat g).total_books = wrapAdd g.total_books batch.length
    ∧ (-2147483648 ≤ g.total_books → g.total_books + (batch.length : Int) < 2147483648 →
        (update_stats batch cat g).total_books = g.total_books + (batch.length : Int))
    ∧ ((∀ p : List Book, p <+: batch →
          IsDouble (g.total_price + (p.map (fun b => b.price)).sum)) →
        (update_stats batch cat g).total_price
          = g.total_price + (batch.map (fun b => b.price)).sum)
    ∧ ((∀ p : List Book, p <+: batch →
          IsDouble (g.sum_ratings + (p.map (fun b => (b.rating : ℚ))).sum)) →
        (update_stats batch cat g).sum_ratings
          = g.sum_ratings + (batch.map (fun b => (b.rating : ℚ))).sum) := by
  refine ⟨update_stats_total_books batch cat g, ?_,
    update_stats_total_price_exact batch cat g, update_stats_sum_ratings_exact batch cat g⟩
  intro hlo hhi
  rw [update_stats_total_books, wrapAdd_exact _ _ hlo hhi]

/-- C9, amended, at the batch of records A, B, C from the initial state. -/
theorem sums_postcondition_witness :
    (-2147483648 ≤ initial_globals.total_books
      ∧ initial_globals.total_books + (([bookA, bookB, bookC].length : Nat) : Int) < 2147483648)
    ∧ (∀ p ∈ [bookA, bookB, bookC].inits,
        IsDouble (initial_globals.total_price + (p.map (fun b => b.price)).sum))
    ∧ (∀ p ∈ [bookA, bookB, bookC].inits,
        IsDouble (initial_globals.sum_ratings + (p.map (fun b => (b.rating : ℚ))).sum))
    ∧ (update_stats [bookA, bookB, bookC] [] initial_globals).total_books
        = initial_globals.total_books + (([bookA, bookB, bookC].length : Nat) : Int)
    ∧ (update_stats [bookA, bookB, bookC] [] initial_globals).total_price
        = initial_globals.total_price + ([bookA, bookB, bookC].map (fun b => b.price)).sum
    ∧ (update_stats [bookA, bookB, bookC] [] initial_globals).sum_ratings
        = initial_globals.sum_ratings
          + ([bookA, bookB, bookC].map (fun b => (b.rating : ℚ))).sum :=
  have hb : -2147483648 ≤ initial_globals.total_books
      ∧ initial_globals.total_books + (([bookA, bookB, bookC].length : Nat) : Int)
        < 2147483648 := by decide
  have hp : ∀ p ∈ [bookA, bookB, bookC].inits,
      IsDouble (initial_globals.total_price + (p.map (fun b => b.price)).sum) := by decide!
  have hr : ∀ p ∈ [bookA, bookB, bookC].inits,
      IsDouble (initial_globals.sum_ratings + (p.map (fun b => (b.rating : ℚ))).sum) := by
    decide!
  ⟨hb, hp, hr,
    (sums_postcondition initial_globals [bookA, bookB, bookC] []).2.1 hb.1 hb.2,
    (sums_postcondition initial_globals [bookA, bookB, bookC] []).2.2.1
      (fun p h => hp p ((List.mem_inits p _).mpr h)),
    (sums_postcondition initial_globals [bookA, bookB, bookC] []).2.2.2
      (fun p h => hr p ((List.mem_inits p _).mpr h))⟩

/-- C10, as stated, fails: after one call of `update_stats` from the reset
state with `2^31` records rated 1, `one_star` is `INT_MIN` and not the number
`2^31` of recorded records rated 1; and after `2^30` records rated 1 followed
by `2^30` records rated 2, `total_books` is `INT_MIN` while the five counters
and the number of records rated outside 1..5 add up to `2^31`. -/
theorem bucket_count_wraps :
    (update_stats (List.replicate 2147483648 bookC) [] (reset_globals initial_globals)).one_star
        = -2147483648
    ∧ (((List.replicate 2147483648 bookC).countP (fun b => decide (b.rating = 1)) : Nat) : Int)
        = 2147483648
    ∧ (update_stats (List.replicate 1073741824 bookC ++ List.replicate 1073741824 bookFree) []
          (reset_globals initial_globals)).total_books = -2147483648
    ∧ (update_stats (List.replicate 1073741824 bookC ++ List.replicate 1073741824 bookFree) []
          (reset_globals initial_globals)).one_star = 1073741824
    ∧ (update_stats (List.replicate 1073741824 bookC ++ List.replicate 1073741824 bookFree) []
          (reset_globals initial_globals)).two_stars = 1073741824
    ∧ (update_stats (List.replicate 1073741824 bookC ++ List.replicate 1073741824 bookFree) []
          (reset_globals initial_globals)).three_stars = 0
    ∧ (update_stats (List.replicate 1073741824 bookC ++ List.replicate 1073741824 bookFree) []
          (reset_globals initial_globals)).four_stars = 0
    ∧ (update_stats (List.replicate 1073741824 bookC ++ List.replicate 1073741824 bookFree) []
          (reset_globals initial_globals)).five_stars = 0 := by
  have r1 : (fun b : Book => decide (b.rating = 1)) bookC = true := by decide
  have r1f : ¬ ((fun b : Book => decide (b.rating = 1)) bookFree = true) := by decide
  have r2 : ¬ ((fun b : Book => decide (b.rating = 2)) bookC = true) := by decide
  have r2f : (fun b : Book => decide (b.rating = 2)) bookFree = true := by decide
  have r3 : ¬ ((fun b : Book => decide (b.rating = 3)) bookC = true) := by decide
  have r3f : ¬ ((fun b : Book => decide (b.rating = 3)) bookFree = true) := by decide
  have r4 : ¬ ((fun b : Book => decide (b.rating = 4)) bookC = true) := by decide
  have r4f : ¬ ((fun b : Book => decide (b.rating = 4)) bookFree = true) := by decide
  have r5 : ¬ ((fun b : Book => decide (b.rating = 5)) bookC = true) := by decide
  have r5f : ¬ ((fun b : Book => decide (b.rating = 5)) bookFree = true) := by decide
  have z1 : (reset_globals initial_globals).one_star = 0 := rfl
  have z2 : (reset_globals initial_globals).two_stars = 0 := rfl
  have z3 : (reset_globals initial_globals).three_stars = 0 := rfl
  have z4 : (reset_globals initial_globals).four_stars = 0 := rfl
  have z5 : (reset_globals initial_globals).five_stars = 0 := rfl
  have zt : (reset_globals initial_globals).total_books = 0 := rfl
  refine ⟨?_, ?_, ?_, ?_, ?_, ?_, ?_, ?_⟩
  · rw [update_stats_one_star, List.countP_replicate, if_pos r1, z1]
    decide
  · rw [List.countP_replicate, if_pos r1]
    rfl
  · rw [update_stats_total_books, List.length_append, List.length_replicate,
      List.length_replicate, zt]
    decide
  · rw [update_stats_one_star, List.countP_append, List.countP_replicate,
      List.countP_replicate, if_pos r1, if_neg r1f, z1]
    decide
  · rw [update_stats_two_stars, List.countP_append, List.countP_replicate,
      List.countP_replicate, if_neg r2, if_pos r2f, z2]
    decide
  · rw [update_stats_three_stars, List.countP_append, List.countP_replicate,
      List.countP_replicate, if_neg r3, if_neg r3f, z3]
    decide
  · rw [update_stats_four_stars, List.countP_append, List.countP_replicate,
      List.countP_replicate, if_neg r4, if_neg r4f, z4]
    decide
  · rw [update_stats_five_stars, List.countP_append, List.countP_replicate,
      List.countP_replicate, if_neg r5, if_neg r5f, z5]
    decide

/-- C10, amended: in every state reached from the reset state by calls of
`update_stats`, each star counter is the number of recorded records with that
rating, wrapped into the range of `int`, and `total_books` is the number of
recorded records, wrapped likewise. When fewer than `2^31` records have been
recorded, each star counter is the number of recorded records with that rating
and `total_books` is the sum of the five counters and of the number of
recorded records rated outside 1..5. A record rated outside 1..5 changes no
counter. -/
theorem bucket_count_invariant (g0 : Globals) (calls : List (List Book × CppString)) :
    ((calls.foldl (fun s c => update_stats c.1 c.2 s) (reset_globals g0)).one_star
        = wrap32 ((calls.flatMap (fun c => c.1)).countP (fun b => decide (b.rating = 1)) : Int)
      ∧ (calls.foldl (fun s c => update_stats c.1 c.2 s) (reset_globals g0)).two_stars
        = wrap32 ((calls.flatMap (fun c => c.1)).countP (fun b => decide (b.rating = 2)) : Int)
      ∧ (calls.foldl (fun s c => update_stats c.1 c.2 s) (reset_globals g0)).three_stars
        = wrap32 ((calls.flatMap (fun c => c.1)).countP (fun b => decide (b.rating = 3)) : Int)
      ∧ (calls.foldl (fun s c => update_stats c.1 c.2 s) (reset_globals g0)).four_stars
        = wrap32 ((calls.flatMap (fun c => c.1)).countP (fun b => decide (b.rating = 4)) : Int)
      ∧ (calls.foldl (fun s c => update_stats c.1 c.2 s) (reset_globals g0)).five_stars
        = wrap32 ((calls.flatMap (fun c => c.1)).countP (fun b => decide (b.rating = 5)) : Int)
      ∧ (calls.foldl (fun s c => update_stats c.1 c.2 s) (reset_globals g0)).total_books
        = wrap32 ((calls.flatMap (fun c => c.1)).length : Int))
    ∧ ((calls.flatMap (fun c => c.1)).length < 2147483648 →
      ((calls.foldl (fun s c => update_stats c.1 c.2 s) (reset_globals g0)).one_star
          = ((calls.flatMap (fun c => c.1)).countP (fun b => decide (b.rating = 1)) : Int)
        ∧ (calls.foldl (fun s c => update_stats c.1 c.2 s) (reset_globals g0)).two_stars
          = ((calls.flatMap (fun c => c.1)).countP (fun b => decide (b.rating = 2)) : Int)
        ∧ (calls.foldl (fun s c => update_stats c.1 c.2 s) (reset_globals g0)).three_stars
          = ((calls.flatMap (fun c => c.1)).countP (fun b => decide (b.rating = 3)) : Int)
        ∧ (calls.foldl (fun s c => update_stats c.1 c.2 s) (reset_globals g0)).four_stars
          = ((calls.flatMap (fun c => c.1)).countP (fun b => decide (b.rating = 4)) : Int)
        ∧ (calls.foldl (fun s c => update_stats c.1 c.2 s) (reset_globals g0)).five_stars
          = ((calls.flatMap (fun c => c.1)).countP (fun b => decide (b.rating = 5)) : Int))
      ∧ (calls.foldl (fun s c => update_stats c.1 c.2 s) (reset_globals g0)).total_books
          = (calls.foldl (fun s c => update_stats c.1 c.2 s) (reset_globals g0)).one_star
            + (calls.foldl (fun s c => update_stats c.1 c.2 s) (reset_globals g0)).two_stars
            + (calls.foldl (fun s c => update_stats c.1 c.2 s) (reset_globals g0)).three_stars
            + (calls.foldl (fun s c => update_stats c.1 c.2 s) (reset_globals g0)).four_stars
            + (calls.foldl (fun s c => update_stats c.1 c.2 s) (reset_globals g0)).five_stars
            + ((calls.flatMap (fun c => c.1)).countP
                (fun b => decide (b.rating < 1 ∨ 5 < b.rating)) : Int))
    ∧ ∀ (g : Globals) (b : Book) (cat : CppString), (b.rating < 1 ∨ 5 < b.rating) →
        (update_stats [b] cat g).one_star = g.one_star
        ∧ (update_stats [b] cat g).two_stars = g.two_stars
        ∧ (update_stats [b] cat g).three_stars = g.three_stars
        ∧ (update_stats [b] cat g).four_stars = g.four_stars
        ∧ (update_stats [b] cat g).five_stars = g.five_stars := by
  rw [update_stats_calls]
  have h1 := update_stats_one_star (calls.flatMap (fun c => c.1)) [] (reset_globals g0)
  have h2 := update_stats_two_stars (calls.flatMap (fun c => c.1)) [] (reset_globals g0)
  have h3 := update_stats_three_stars (calls.flatMap (fun c => c.1)) [] (reset_globals g0)
  have h4 := update_stats_four_stars (calls.flatMap (fun c => c.1)) [] (reset_globals g0)
  have h5 := update_stats_five_stars (calls.flatMap (fun c => c.1)) [] (reset_globals g0)
  have ht := update_stats_total_books (calls.flatMap (fun c => c.1)) [] (reset_globals g0)
  have hz1 : (reset_globals g0).one_star = 0 := rfl
  have hz2 : (reset_globals g0).two_stars = 0 := rfl
  have hz3 : (reset_globals g0).three_stars = 0 := rfl
  have hz4 : (reset_globals g0).four_stars = 0 := rfl
  have hz5 : (reset_globals g0).five_stars = 0 := rfl
  have hzt : (reset_globals g0).total_books = 0 := rfl
  rw [hz1, wrapAdd_zero_left] at h1
  rw [hz2, wrapAdd_zero_left] at h2
  rw [hz3, wrapAdd_zero_left] at h3
  rw [hz4, wrapAdd_zero_left] at h4
  rw [hz5, wrapAdd_zero_left] at h5
  rw [hzt, wrapAdd_zero_left] at ht
  refine ⟨⟨h1, h2, h3, h4, h5, ht⟩, ?_, ?_⟩
  · intro hlen
    have c1 := List.countP_le_length (fun b : Book => decide (b.rating = 1))
      (l := calls.flatMap (fun c => c.1))
    have c2 := List.countP_le_length (fun b : Book => decide (b.rating = 2))
      (l := calls.flatMap (fun c => c.1))
    have c3 := List.countP_le_length (fun b : Book => decide (b.rating = 3))
      (l := calls.flatMap (fun c => c.1))
    have c4 := List.countP_le_length (fun b : Book => decide (b.rating = 4))
      (l := calls.flatMap (fun c => c.1))
    have c5 := List.countP_le_length (fun b : Book => decide (b.rating = 5))
      (l := calls.flatMap (fun c => c.1))
    rw [wrap32_small _ (by omega)] at h1 h2 h3 h4 h5
    rw [wrap32_small _ hlen, length_eq_rating_classes] at ht
    refine ⟨⟨h1, h2, h3, h4, h5⟩, ?_⟩
    rw [ht, h1, h2, h3, h4, h5]
  · intro g b cat hb
    have e1 : ¬ b.rating = 1 := by omega
    have e2 : ¬ b.rating = 2 := by omega
    have e3 : ¬ b.rating = 3 := by omega
    have e4 : ¬ b.rating = 4 := by omega
    have e5 : ¬ b.rating = 5 := by omega
    rw [update_stats_cons, update_stats_nil, update_one_eq]
    simp [e1, e2, e3, e4, e5]

/-- C10, amended, at two calls, the second with a record rated 0. -/
theorem bucket_count_invariant_witness :
    ([([bookA, bookC], ([] : CppString)), ([bookUnrated], [])].flatMap
        (fun c => c.1)).length < 2147483648
    ∧ (bookUnrated.rating < 1 ∨ 5 < bookUnrated.rating)
    ∧ ([([bookA, bookC], ([] : CppString)), ([bookUnrated], [])].foldl
        (fun s c => update_stats c.1 c.2 s) (reset_globals initial_globals)).one_star
        = (([([bookA, bookC], ([] : CppString)), ([bookUnrated], [])].flatMap
            (fun c => c.1)).countP (fun b => decide (b.rating = 1)) : Int)
    ∧ (update_stats [bookUnrated] [] initial_globals).one_star = initial_globals.one_star
    ∧ ([([bookA, bookC], ([] : CppString)), ([bookUnrated], [])].foldl
        (fun s c => update_stats c.1 c.2 s) (reset_globals initial_globals)).total_books = 3 :=
  have hl : ([([bookA, bookC], ([] : CppString)), ([bookUnrated], [])].flatMap
      (fun c => c.1)).length < 2147483648 := by decide
  have hb : bookUnrated.rating < 1 ∨ 5 < bookUnrated.rating := by decide
  ⟨hl, hb,
    ((bucket_count_invariant initial_globals
      [([bookA, bookC], []), ([bookUnrated], [])]).2.1 hl).1.1,
    ((bucket_count_invariant initial_globals
      [([bookA, bookC], []), ([bookUnrated], [])]).2.2 initial_globals bookUnrated [] hb).1,
    by decide!⟩
/-! ## Crawl engine: the claims -/

/-- C14, as stated, fails: the link `httpd.html` is not empty, holds no `://`
and does not begin with `/`, and the resolver returns it unchanged instead of
appending it to the directory of the origin. -/
theorem resolver_rule3_fails_on_http_name :
    "httpd.html".toList ≠ []
    ∧ ¬ "://".toList <:+: "httpd.html".toList
    ∧ "httpd.html".toList.head? ≠ some '/'
    ∧ '/' ∈ "https://site.example/a/b.html".toList
    ∧ make_absolute "httpd.html".toList "https://site.example/a/b.html".toList
        = "httpd.html".toList
    ∧ make_absolute "httpd.html".toList "https://site.example/a/b.html".toList
        ≠ "https://site.example/a/".toList ++ "httpd.html".toList := by
  decide

/-- C14, amended: for an origin that contains a `/` and a non-empty link that
begins neither with the characters `http` nor with `/`, the resolver returns
the origin truncated just after its last `/`, followed by the link. -/
theorem resolver_rule3 (link origin : CppString) (hne : link ≠ [])
    (hh : ¬ "http".toList <+: link) (hr : link.head? ≠ some '/') (ho : '/' ∈ origin) :
    ∃ pre post, origin = pre ++ '/' :: post ∧ '/' ∉ post
      ∧ make_absolute link origin = pre ++ '/' :: link := by
  obtain ⟨pre, post, e, hp⟩ := exists_last_split origin '/' ho
  refine ⟨pre, post, e, hp, ?_⟩
  rw [make_absolute_of_relative link origin hne hh hr, e, rfind_append pre post '/' hp]
  simp [substr, List.take_append]

/-- C14, amended, at the first literal case of the resolver. -/
theorem resolver_rule3_witness :
    "page2.html".toList ≠ []
    ∧ ¬ "http".toList <+: "page2.html".toList
    ∧ "page2.html".toList.head? ≠ some '/'
    ∧ '/' ∈ "https://site.example/catalogue/index.html".toList
    ∧ ∃ pre post, "https://site.example/catalogue/index.html".toList = pre ++ '/' :: post
        ∧ '/' ∉ post
        ∧ make_absolute "page2.html".toList "https://site.example/catalogue/index.html".toList
            = pre ++ '/' :: "page2.html".toList :=
  ⟨by decide, by decide, by decide, by decide,
    resolver_rule3 "page2.html".toList "https://site.example/catalogue/index.html".toList
      (by decide) (by decide) (by decide) (by decide)⟩

/-- C15, as stated, fails: the link `ftp://files.example/x` begins with a scheme
name followed by `://`, and the resolver appends it to the directory of the
origin instead of returning it unchanged. -/
theorem resolver_rule1_fails_on_ftp :
    "ftp://".toList <+: "ftp://files.example/x".toList
    ∧ make_absolute "ftp://files.example/x".toList "https://site.example/y".toList
        = "https://site.example/ftp://files.example/x".toList
    ∧ make_absolute "ftp://files.example/x".toList "https://site.example/y".toList
        ≠ "ftp://files.example/x".toList := by
  decide

/-- C15, amended: a link that begins with the characters `http`, which covers
the scheme prefixes `http://` and `https://`, is returned unchanged whatever
the origin. -/
theorem resolver_rule1 (link origin : CppString) (h : "http".toList <+: link) :
    make_absolute link origin = link :=
  make_absolute_of_http link origin h

/-- C15, amended, at the third literal case of the resolver. -/
theorem resolver_rule1_witness :
    "http".toList <+: "https://other.example/x".toList
    ∧ make_absolute "https://other.example/x".toList "https://site.example/y".toList
        = "https://other.example/x".toList :=
  ⟨by decide, resolver_rule1 _ _ (by decide)⟩

/-- C19: for an origin that begins with `http` and a non-empty link, the result
of the resolver begins with `http`, and resolving the result again, against any
origin, returns it unchanged. -/
theorem resolver_output_absolute (link origin o2 : CppString) (hne : link ≠ [])
    (ho : "http".toList <+: origin) :
    "http".toList <+: make_absolute link origin
    ∧ make_absolute (make_absolute link origin) o2 = make_absolute link origin :=
  ⟨make_absolute_begins_http link origin hne ho,
    make_absolute_of_http _ o2 (make_absolute_begins_http link origin hne ho)⟩

/-- C19 at a rooted link, resolved again against another origin. -/
theorem resolver_output_absolute_witness :
    "/catalogue/page2.html".toList ≠ []
    ∧ "http".toList <+: "https://site.example/catalogue/index.html".toList
    ∧ "http".toList <+: make_absolute "/catalogue/page2.html".toList
        "https://site.example/catalogue/index.html".toList
    ∧ make_absolute (make_absolute "/catalogue/page2.html".toList
        "https://site.example/catalogue/index.html".toList) "ftp://other/z".toList
        = make_absolute "/catalogue/page2.html".toList
            "https://site.example/catalogue/index.html".toList :=
  ⟨by decide, by decide,
    resolver_output_absolute "/catalogue/page2.html".toList
      "https://site.example/catalogue/index.html".toList "ftp://other/z".toList
      (by decide) (by decide)⟩

/-! ## Reset and the degenerate crawl -/

/-- A task on a URL that is not in `visited` and whose download fails. -/
theorem visit_failed (env : Env) (c : Crawl) (url : CppString) (hv : url ∉ c.g.visited)
    (hd : (env.download url).isEmpty = true) :
    visit env c url
      = ({ g := { c.g with visited := insert url c.g.visited }
           downloads := c.downloads ++ [url] }, []) := by
  simp [visit, hv, hd]

/-- C11, as stated, fails: after `reset_globals` the fields `min_price` and
`min_book.price` are `DBL_MAX`, not zero. -/
theorem reset_min_price_not_zero :
    (reset_globals initial_globals).min_price = DBL_MAX
    ∧ (reset_globals initial_globals).min_book.price = DBL_MAX
    ∧ (reset_globals initial_globals).min_price ≠ 0
    ∧ (reset_globals initial_globals).min_book.price ≠ 0 := by
  decide!

/-- C11, amended: after `reset_globals` every counter and sum, `max_price`, the
price of `max_book` and the ratings of `min_book` and `max_book` are zero, and
`min_price` and the price of `min_book` are `DBL_MAX`; a serial or parallel
crawl from the reset state whose start page fails to download returns with
these statistics unchanged and the start URL as the only visited URL. -/
theorem reset_state_values (g : Globals) (env : Env) (start : CppString) :
    ((reset_globals g).total_books = 0 ∧ (reset_globals g).total_price = 0
      ∧ (reset_globals g).sum_ratings = 0
      ∧ (reset_globals g).one_star = 0 ∧ (reset_globals g).two_stars = 0
      ∧ (reset_globals g).three_stars = 0 ∧ (reset_globals g).four_stars = 0
      ∧ (reset_globals g).five_stars = 0
      ∧ (reset_globals g).max_price = 0 ∧ (reset_globals g).min_price = DBL_MAX
      ∧ (reset_globals g).min_book.price = DBL_MAX ∧ (reset_globals g).min_book.rating = 0
      ∧ (reset_globals g).max_book.price = 0 ∧ (reset_globals g).max_book.rating = 0)
    ∧ ((env.download start).isEmpty = true →
        (∀ fuel : Nat, ∃ c, serial_scrape env (fuel + 1) start (reset_globals g) = some c
          ∧ statsOf c.g = reset_globals g ∧ c.g.visited = {start})
        ∧ (∀ (i : Nat) (sched : List Nat),
            ∃ c, scrape env (i :: sched) start (reset_globals g) = some c
              ∧ statsOf c.g = reset_globals g ∧ c.g.visited = {start})) := by
  refine ⟨⟨rfl, rfl, rfl, rfl, rfl, rfl, rfl, rfl, rfl, rfl, rfl, rfl, rfl, rfl⟩, ?_⟩
  intro hd
  have hv : start ∉ (reset_globals g).visited := Finset.not_mem_empty _
  constructor
  · intro fuel
    refine ⟨{ g := { reset_globals g with visited := insert start (reset_globals g).visited }
              downloads := [] ++ [start] }, ?_, ?_, ?_⟩
    · rw [serial_scrape, serial_loop_cons,
        visit_failed env ⟨reset_globals g, []⟩ start hv hd]
      cases fuel <;> rfl
    · rfl
    · rfl
  · intro i sched
    refine ⟨{ g := { reset_globals g with visited := insert start (reset_globals g).visited }
              downloads := [] ++ [start] }, ?_, ?_, ?_⟩
    · rw [scrape, scrape_loop_cons]
      simp only [List.length_singleton, Nat.mod_one, List.getD_cons_zero,
        List.eraseIdx_cons_zero, List.nil_append]
      rw [visit_failed env ⟨reset_globals g, []⟩ start hv hd]
      cases sched <;> rfl
    · rfl
    · rfl

/-- C11, amended, on the 3-page fixture started at a URL that fails to download. -/
theorem reset_state_values_witness :
    (fixtureEnv.download "https://site.example/missing.html".toList).isEmpty = true
    ∧ ∃ c, serial_scrape fixtureEnv 1 "https://site.example/missing.html".toList
          (reset_globals initial_globals) = some c
        ∧ statsOf c.g = reset_globals initial_globals
        ∧ c.g.visited = {"https://site.example/missing.html".toList} :=
  have hd : (fixtureEnv.download "https://site.example/missing.html".toList).isEmpty = true := by
    decide
  ⟨hd, ((reset_state_values initial_globals fixtureEnv
      "https://site.example/missing.html".toList).2 hd).1 0⟩

/-- C12: `reset_globals` applied to any state yields the initial state of the
program, so a serial or parallel crawl run after `reset_globals` is the same
crawl run on the initial state, with the same result. -/
theorem reset_is_initial (g : Globals) (env : Env) (start : CppString) (fuel : Nat)
    (sched : List Nat) :
    reset_globals g = initial_globals
    ∧ serial_scrape env fuel start (reset_globals g) = serial_scrape env fuel start initial_globals
    ∧ scrape env sched start (reset_globals g) = scrape env sched start initial_globals :=
  ⟨rfl, rfl, rfl⟩

/-! ## Crawl engine: termination and the visited set -/

/-- C13: when the set of URLs reachable from the start URL is finite, cycles
and self-links included, there is a number of iterations from which on the
serial crawl from the reset state returns, and the parallel crawl returns under
every schedule of at least that many tasks. -/
theorem crawl_terminates (env : Env) (start : CppString) (g0 : Globals)
    (hfin : Set.Finite {u | Reachable env start u}) :
    ∃ N, (∀ fuel : Nat, N ≤ fuel →
          ∃ c, serial_scrape env fuel start (reset_globals g0) = some c)
      ∧ (∀ sched : List Nat, N ≤ sched.length →
          ∃ c, scrape env sched start (reset_globals g0) = some c) := by
  obtain ⟨R, hs, hc⟩ := (reachable_finite_iff env start).mp hfin
  exact ⟨crawlBound env R,
    fun fuel hb => serial_scrape_returns env R start hs hc g0 fuel hb,
    fun sched hb => scrape_returns env R start hs hc g0 sched hb⟩

/-- C13 on the fixture with cycles: the reachable set is finite, the crawl
returns, and the serial crawl needs four iterations for its two pages because
the index page is enqueued three times and claimed once. -/
theorem crawl_terminates_witness :
    Set.Finite {u | Reachable cycleEnv urlIndex u}
    ∧ (∃ N, (∀ fuel : Nat, N ≤ fuel →
          ∃ c, serial_scrape cycleEnv fuel urlIndex (reset_globals initial_globals) = some c)
        ∧ (∀ sched : List Nat, N ≤ sched.length →
          ∃ c, scrape cycleEnv sched urlIndex (reset_globals initial_globals) = some c))
    ∧ serial_scrape cycleEnv 3 urlIndex (reset_globals initial_globals) = none
    ∧ (serial_scrape cycleEnv 4 urlIndex (reset_globals initial_globals)).map
        (fun c => c.downloads) = some [urlIndex, urlCat1] :=
  have hfin : Set.Finite {u | Reachable cycleEnv urlIndex u} :=
    (reachable_finite_iff cycleEnv urlIndex).mpr
      ⟨{urlIndex, urlCat1}, by decide, fun u hu v hv =>
        have h : ∀ u ∈ ({urlIndex, urlCat1} : Finset CppString),
            ∀ v ∈ linksOf cycleEnv u, v ∈ ({urlIndex, urlCat1} : Finset CppString) := by
          decide
        Finset.mem_coe.mpr (h u (Finset.mem_coe.mp hu) v hv)⟩
  ⟨hfin, crawl_terminates cycleEnv urlIndex initial_globals hfin, by decide!, by decide!⟩

/-- C20: when the set of URLs reachable from the start URL is finite, the
serial crawl from the reset state returns, and then `visited` is the set of
reachable URLs: it holds the start URL, it holds the resolved form of every
link extracted from the body of a member whose download succeeded, and it is
inside every set with these two properties. A member whose download failed
has no records and no links; an empty link on a downloaded page puts the empty
URL into `visited`; every member is counted in `visited.size()`; and the
statistics are those of the records of the members. -/
theorem visited_is_reachable_closure (env : Env) (start : CppString) (g0 : Globals)
    (hfin : Set.Finite {u | Reachable env start u}) :
    ∃ N, ∀ fuel : Nat, N ≤ fuel →
      ∃ c, serial_scrape env fuel start (reset_globals g0) = some c
        ∧ (∀ u, u ∈ c.g.visited ↔ Reachable env start u)
        ∧ start ∈ c.g.visited
        ∧ (∀ u ∈ c.g.visited, (env.download u).isEmpty = false →
            ∀ l ∈ (env.parse (env.download u) u).new_urls, make_absolute l u ∈ c.g.visited)
        ∧ (∀ S : Set CppString, start ∈ S →
            (∀ u ∈ S, (env.download u).isEmpty = false →
              ∀ l ∈ (env.parse (env.download u) u).new_urls, make_absolute l u ∈ S) →
            ∀ u ∈ c.g.visited, u ∈ S)
        ∧ (∀ u ∈ c.g.visited, (env.download u).isEmpty = true →
            booksOf env u = [] ∧ linksOf env u = [])
        ∧ (∀ u ∈ c.g.visited, (env.download u).isEmpty = false →
            [] ∈ (env.parse (env.download u) u).new_urls → ([] : CppString) ∈ c.g.visited)
        ∧ num_pages c.g = (c.downloads.length : Int)
        ∧ statsOf c.g
            = update_stats (c.downloads.flatMap (booksOf env)) [] (reset_globals g0) := by
  obtain ⟨R, hs, hc⟩ := (reachable_finite_iff env start).mp hfin
  refine ⟨crawlBound env R, fun fuel hb => ?_⟩
  obtain ⟨c, hr⟩ := serial_scrape_returns env R start hs hc g0 fuel hb
  have h := crawlInv_serial_loop env start fuel _ _ c (crawlInv_init env start g0) hr
  have hiff := crawlInv_visited_iff env start c h
  have hlinks : ∀ u ∈ c.g.visited, (env.download u).isEmpty = false →
      ∀ l ∈ (env.parse (env.download u) u).new_urls, make_absolute l u ∈ c.g.visited := by
    intro u hu hd l hl
    rcases h.closed u hu (make_absolute l u)
      (by simp only [linksOf, hd, Bool.false_eq_true, if_false]
          exact List.mem_map_of_mem _ hl) with hm | hm
    · exact hm
    · simp at hm
  refine ⟨c, hr, hiff, (hiff start).mpr Reachable.start, hlinks, ?_, ?_, ?_, ?_, h.stats⟩
  · intro S hS hcl u hu
    refine (h.least S hS ?_).1 u hu
    intro x hx v hv
    by_cases hd : (env.download x).isEmpty = true
    · simp [linksOf, hd] at hv
    · have hd' : (env.download x).isEmpty = false := by simpa using hd
      simp only [linksOf, hd', Bool.false_eq_true, if_false, List.mem_map] at hv
      obtain ⟨l, hl, rfl⟩ := hv
      exact hcl x hx hd' l hl
  · intro u _ hd
    simp [booksOf, linksOf, hd]
  · intro u hu hd hl
    have := hlinks u hu hd [] hl
    simpa [make_absolute] using this
  · rw [num_pages, h.visited_eq, List.toFinset_card_of_nodup h.nodup]

/-- C20 on the fixture with dead ends: the empty URL and the page that fails to
download are both visited and counted, and no record is aggregated. -/
theorem visited_is_reachable_closure_witness :
    Set.Finite {u | Reachable deadEnv urlIndex u}
    ∧ (∃ N, ∀ fuel : Nat, N ≤ fuel →
        ∃ c, serial_scrape deadEnv fuel urlIndex (reset_globals initial_globals) = some c
          ∧ (∀ u, u ∈ c.g.visited ↔ Reachable deadEnv urlIndex u)
          ∧ num_pages c.g = (c.downloads.length : Int))
    ∧ (serial_scrape deadEnv 3 urlIndex (reset_globals initial_globals)).map
        (fun c => (c.downloads, num_pages c.g, c.g.total_books))
        = some ([urlIndex, [], "https://site.example/missing.html".toList], 3, 0) :=
  have hfin : Set.Finite {u | Reachable deadEnv urlIndex u} :=
    (reachable_finite_iff deadEnv urlIndex).mpr
      ⟨{urlIndex, [], "https://site.example/missing.html".toList}, by decide,
        fun u hu v hv =>
        have h : ∀ u ∈ ({urlIndex, [], "https://site.example/missing.html".toList} :
              Finset CppString),
            ∀ v ∈ linksOf deadEnv u,
              v ∈ ({urlIndex, [], "https://site.example/missing.html".toList} :
                Finset CppString) := by
          decide
        Finset.mem_coe.mpr (h u (Finset.mem_coe.mp hu) v hv)⟩
  ⟨hfin,
    (visited_is_reachable_closure deadEnv urlIndex initial_globals hfin).imp
      (fun _ hN fuel hb =>
        (hN fuel hb).imp (fun _ hc => ⟨hc.1, hc.2.1, hc.2.2.2.2.2.2.2.1⟩)),
    by decide!⟩

/-! ## Extractor: the claims -/

/-- C16: on a listing page whose first product article has no star-rating
element and whose second article is rated Five, `parse` gives the record of the
first article the rating 5, not 0; and on a listing page whose only article has
no star-rating element, the rating of the record is never assigned. -/
theorem parse_missing_rating :
    find urlCat1 "/category/".toList 0 ≠ none
    ∧ (find htmlMissingRating pat_article 0).bind (fun p =>
        (find htmlMissingRating "</article>".toList p).map (fun a =>
          decide (pat_star <:+: substr htmlMissingRating p (a - p)))) = some false
    ∧ (parse decimalValue htmlMissingRating urlCat1).books
        = [{ title := "A".toList, price := some 10, rating := some 5, category := [] },
           { title := "B".toList, price := some 20, rating := some 5, category := [] }]
    ∧ ¬ pat_star <:+: htmlNoRating
    ∧ (parse decimalValue htmlNoRating urlCat1).books
        = [{ title := "A".toList, price := some 10, rating := none, category := [] }] := by
  refine ⟨?_, ?_, ?_, ?_, ?_⟩ <;> decide!

/-- C17: for a source URL that does not contain `/category/`, `parse` returns
no record, whatever the body holds, so a crawl task on such a URL hands no
record to `update_stats`. -/
theorem records_only_from_listing_pages (stod : CppString → ℚ) (html url : CppString)
    (h : ¬ "/category/".toList <:+: url) :
    (parse stod html url).books = []
    ∧ ∀ (download : CppString → CppString) (indet : Nat → ℚ × Int),
        booksOf (siteEnv download stod indet) url = [] := by
  have hf : find url "/category/".toList 0 = none := (find_eq_none_iff _ _).mpr h
  have hb : (parse stod html url).books = [] := by
    simp only [parse, hf, ne_eq, not_true_eq_false, if_false]
  refine ⟨hb, fun download indet => ?_⟩
  have hb' : ∀ body, (parse stod body url).books = [] := fun body => by
    simp only [parse, hf, ne_eq, not_true_eq_false, if_false]
  simp [booksOf, siteEnv, hb']

/-- C17 at the index page, with a body that holds two product articles. -/
theorem records_only_from_listing_pages_witness :
    ¬ "/category/".toList <:+: urlIndex
    ∧ pat_article <:+: htmlMissingRating
    ∧ (parse decimalValue htmlMissingRating urlIndex).books = [] :=
  ⟨by decide, by decide,
    (records_only_from_listing_pages decimalValue htmlMissingRating urlIndex (by decide)).1⟩

/-! ## Aggregator under concurrency: the claim -/

/-- C18, as stated, fails: the update of `min_price` is not inside the critical
section. A thread that handles one record of price 10 from the reset state has,
after its compare-and-swap and before it takes `stats_mutex`, left a state in
which `min_price` is 10 and `min_book.price` is still `DBL_MAX`. -/
theorem scalar_update_outside_critical_section :
    (conc_run (List.replicate 6 (0, true)) (reset_globals initial_globals)
        [Worker.start [bookA]]).2 = [⟨[bookA], Pc.load_max, DBL_MAX, 0⟩]
    ∧ (conc_run (List.replicate 6 (0, true)) (reset_globals initial_globals)
        [Worker.start [bookA]]).1.min_price = 10
    ∧ (conc_run (List.replicate 6 (0, true)) (reset_globals initial_globals)
        [Worker.start [bookA]]).1.min_book.price = DBL_MAX
    ∧ (conc_run (List.replicate 6 (0, true)) (reset_globals initial_globals)
        [Worker.start [bookA]]).1.min_book.price
      ≠ (conc_run (List.replicate 6 (0, true)) (reset_globals initial_globals)
        [Worker.start [bookA]]).1.min_price := by
  refine ⟨?_, ?_, ?_, ?_⟩ <;> decide!

/-- C18, amended: the scalar extrema are updated by compare-and-swap loops
before the critical section and the extremum records inside it; under every
interleaving of the steps of concurrent calls of `update_stats` started from
the reset state, spurious failures of `compare_exchange_weak` included, once
all calls have finished `min_book.price = min_price` and
`max_book.price = max_price`. -/
theorem extremum_pair_at_quiescence (g0 : Globals) (batches : List (List Book))
    (sched : List (Nat × Bool))
    (hfin : ∀ w ∈ (conc_run sched (reset_globals g0) (batches.map Worker.start)).2,
      w.books = []) :
    (conc_run sched (reset_globals g0) (batches.map Worker.start)).1.min_book.price
      = (conc_run sched (reset_globals g0) (batches.map Worker.start)).1.min_price
    ∧ (conc_run sched (reset_globals g0) (batches.map Worker.start)).1.max_book.price
      = (conc_run sched (reset_globals g0) (batches.map Worker.start)).1.max_price :=
  concInv_finished _ _
    (conc_run_inv sched _ _ (concInv_start (reset_globals g0) batches rfl rfl)) hfin

/-- C18, amended, for two threads that alternate, the second losing its first
compare-and-swap on `min_price` to the first. -/
theorem extremum_pair_at_quiescence_witness :
    (∀ w ∈ (conc_run raceSchedule (reset_globals initial_globals)
        ([[bookA, bookC], [bookB]].map Worker.start)).2, w.books = [])
    ∧ (conc_run raceSchedule (reset_globals initial_globals)
        ([[bookA, bookC], [bookB]].map Worker.start)).1.min_book.price
      = (conc_run raceSchedule (reset_globals initial_globals)
        ([[bookA, bookC], [bookB]].map Worker.start)).1.min_price
    ∧ (conc_run raceSchedule (reset_globals initial_globals)
        ([[bookA, bookC], [bookB]].map Worker.start)).1.max_book.price
      = (conc_run raceSchedule (reset_globals initial_globals)
        ([[bookA, bookC], [bookB]].map Worker.start)).1.max_price
    ∧ (conc_run raceSchedule (reset_globals initial_globals)
        ([[bookA, bookC], [bookB]].map Worker.start)).1
      = update_stats [bookA, bookB, bookC] [] (reset_globals initial_globals) :=
  have hfin : ∀ w ∈ (conc_run raceSchedule (reset_globals initial_globals)
      ([[bookA, bookC], [bookB]].map Worker.start)).2, w.books = [] := by decide!
  ⟨hfin,
    (extremum_pair_at_quiescence initial_globals [[bookA, bookC], [bookB]] raceSchedule
      hfin).1,
    (extremum_pair_at_quiescence initial_globals [[bookA, bookC], [bookB]] raceSchedule
      hfin).2,
    by decide!⟩

end WebScraper
